import Mathlib

/-!
Monitor class and future/promise notes: a verification development.

Two C++ programs are embedded here.

* `Monitor_Class/main.cpp`: an unsynchronised `Bank`, and `BankMonitor`, which owns a
  `std::mutex` and a `Bank` and whose member functions construct a `std::lock_guard`
  and forward to the `Bank`.
* `future_promise_threads/main.cpp`: `produce`, `consume`, `multiply_2` and the
  doubling pass of `main`.

Member functions are state-passing Lean functions.  `std::cout` is the list of the
insertions (`<<`) made so far.  A call that would block has no result (`none`).
Concurrent executions are schedules: lists of thread ids, each entry letting that
thread take its next atomic step.
-/

/-! ## Exceptions and console output -/

/-- A C++ exception object in flight.  The first three are the errors of the one-shot
channel itself; they and `outOfRange`, `stdException` derive from `std::exception`,
`foreign` stands for a thrown object of any other type. -/
inductive Err where
  | alreadySettled
  | alreadyConsumed
  | brokenChannel
  | outOfRange (msg : String)
  | stdException (tag : Nat) (msg : String)
  | foreign (tag : Nat)
deriving DecidableEq, Repr

/-- The text of `e.what()` when `e` can be bound to `std::exception &`, and `none` when
the object does not derive from `std::exception`.  For the errors of the channel the text
is the name the error has in the specification. -/
def Err.what : Err → Option String
  | .alreadySettled => some "AlreadySettledError"
  | .alreadyConsumed => some "AlreadyConsumedError"
  | .brokenChannel => some "BrokenChannelError"
  | .outOfRange msg => some msg
  | .stdException _ msg => some msg
  | .foreign _ => none

deriving instance DecidableEq for Except

/-- One insertion into `std::cout`: a string, an `int`, or `std::endl`. -/
inductive Tok where
  | str (s : String)
  | int (n : Int)
  | endl
deriving DecidableEq, Repr

/-- The characters an insertion puts on the console. -/
def Tok.render : Tok → String
  | .str s => s
  | .int n => toString n
  | .endl => "\n"

/-- The console: every insertion made so far, oldest first. -/
abbrev Cout := List Tok

/-- The text on the console. -/
def consoleText (out : Cout) : String := String.join (out.map Tok.render)

/-- A thread of execution, by its index among the threads using the object. -/
abbrev Tid := Nat

/-! ## `Monitor_Class/main.cpp` -/

/-- `Bank::debit`: `std::cout << "Debiting " << amount << " from " << name << std::endl;` -/
def Bank.debit (name : String) (amount : Int) : List Tok :=
  [.str "Debiting ", .int amount, .str " from ", .str name, .endl]

/-- `Bank::credit`: `std::cout << "Crediting " << amount << " from " << name << std::endl;` -/
def Bank.credit (name : String) (amount : Int) : List Tok :=
  [.str "Crediting ", .int amount, .str " from ", .str name, .endl]

/-- `Bank::print`: `std::cout << name << "'s transaction went through" << std::endl;` -/
def Bank.print (name : String) : List Tok :=
  [.str name, .str "'s transaction went through", .endl]

/-- What a call of a member function of the wrapped object does to the console, and how
it exits: by returning or by throwing. -/
abbrev BankOp := Cout → Except Err Unit × Cout

/-- A member function that makes the given insertions and returns. -/
def BankOp.insertions (toks : List Tok) : BankOp := fun out => (.ok (), out ++ toks)

/-- The three public member functions of a wrapped bank object. -/
structure BankImpl where
  debit : String → Int → BankOp
  credit : String → Int → BankOp
  print : String → BankOp

/-- The `Bank` class of the source as the wrapped object. -/
def Bank.ops : BankImpl where
  debit name amount := BankOp.insertions (Bank.debit name amount)
  credit name amount := BankOp.insertions (Bank.credit name amount)
  print name := BankOp.insertions (Bank.print name)

/-- The data members of a `BankMonitor` that change, together with the console:
`mtx` is the mutex `mut` (a reserved word here): the owning thread while it is locked. -/
structure MonState where
  mtx : Option Tid
  cout : Cout
deriving DecidableEq, Repr

/-- `std::mutex::lock` by thread `t`.  `none`: the mutex is locked, the caller does not
get past this call. -/
def Mutex.lock (t : Tid) (s : MonState) : Option MonState :=
  if s.mtx = none then some { s with mtx := some t } else none

/-- `std::mutex::unlock`. -/
def Mutex.unlock (s : MonState) : MonState := { s with mtx := none }

/-- A block `{ std::lock_guard<std::mutex> lck(mut); body }` run by thread `t`: the
constructor of `lck` locks, and the destructor unlocks when the block is left, by
reaching its end or by an exception of `body` unwinding through it. -/
def lockGuardScope (t : Tid) (body : BankOp) (s : MonState) :
    Option (Except Err Unit × MonState) :=
  match Mutex.lock t s with
  | none => none
  | some s1 =>
    match body s1.cout with
    | (.ok (), out) => some (.ok (), Mutex.unlock { s1 with cout := out })
    | (.error e, out) => some (.error e, Mutex.unlock { s1 with cout := out })

/-- `BankMonitor::debit`: lock the mutex and forward the call. -/
def BankMonitor.debit (bank : BankImpl) (t : Tid) (name : String) (amount : Int) :
    MonState → Option (Except Err Unit × MonState) :=
  lockGuardScope t (bank.debit name amount)

/-- `BankMonitor::credit`: the body is `bank.debit(name, amount)`. -/
def BankMonitor.credit (bank : BankImpl) (t : Tid) (name : String) (amount : Int) :
    MonState → Option (Except Err Unit × MonState) :=
  lockGuardScope t (bank.debit name amount)

/-- `BankMonitor::print`. -/
def BankMonitor.print (bank : BankImpl) (t : Tid) (name : String) :
    MonState → Option (Except Err Unit × MonState) :=
  lockGuardScope t (bank.print name)

/-- The console after running `op` on an unlocked monitor with an empty console. -/
def outputOf (op : MonState → Option (Except Err Unit × MonState)) : Option Cout :=
  (op { mtx := none, cout := [] }).map (fun r => r.2.cout)

/-! ### Threads sharing one `BankMonitor` -/

/-- A call of a public member function with its arguments; used both for the calls a
thread makes on the `BankMonitor` and for the calls the `BankMonitor` makes on its
`Bank`. -/
inductive Call where
  | debit (name : String) (amount : Int)
  | credit (name : String) (amount : Int)
  | print (name : String)
deriving DecidableEq, Repr

/-- The body of a `Bank` member function: its insertions, in order. -/
def Bank.body : Call → List Tok
  | .debit name amount => Bank.debit name amount
  | .credit name amount => Bank.credit name amount
  | .print name => Bank.print name

/-- The call on the wrapped `Bank` that a `BankMonitor` member function makes. -/
def BankMonitor.forward : Call → Call
  | .debit name amount => .debit name amount
  | .credit name amount => .debit name amount
  | .print name => .print name

/-- Dispatch of a `Call` to the `BankMonitor` member function it names. -/
def BankMonitor.call (bank : BankImpl) (t : Tid) :
    Call → MonState → Option (Except Err Unit × MonState)
  | .debit name amount => BankMonitor.debit bank t name amount
  | .credit name amount => BankMonitor.credit bank t name amount
  | .print name => BankMonitor.print bank t name

/-- The member function of a wrapped bank object that a `Call` names. -/
def BankImpl.call (bank : BankImpl) : Call → BankOp
  | .debit name amount => bank.debit name amount
  | .credit name amount => bank.credit name amount
  | .print name => bank.print name

/-- A wrapped bank whose `debit` prints one word and then throws, and whose other member
functions are those of `Bank`. -/
def throwingBank : BankImpl where
  debit _ _ := fun out => (.error (.outOfRange "Oops"), out ++ [.str "Debiting "])
  credit name amount := BankOp.insertions (Bank.credit name amount)
  print name := BankOp.insertions (Bank.print name)

/-- Where a thread stands in the `BankMonitor` member function it is executing. -/
inductive Phase where
  | idle
  | locked
  | inBank (rest : List Tok)
deriving DecidableEq, Repr

/-- A thread: the calls it still has to make (the current one first) and its phase.
`idle`: not inside a member function.  `locked`: `lck` is constructed, the forwarded
call not yet made.  `inBank rest`: inside the `Bank` member function, with the
insertions `rest` still to make. -/
structure Thread where
  prog : List Call
  phase : Phase
deriving DecidableEq, Repr

/-- What an observer of the monitor sees a thread do. -/
inductive Event where
  | acquire (t : Tid)
  | release (t : Tid)
  | bankCall (t : Tid) (c : Call)
deriving DecidableEq, Repr

/-- Threads running against one `BankMonitor`: its mutex, the console, the threads, and
the events so far. -/
structure Sys where
  mtx : Option Tid
  cout : Cout
  threads : List Thread
  trace : List Event
deriving DecidableEq, Repr

/-- The start: mutex unlocked, nothing printed, every thread before its first call. -/
def Sys.init (progs : List (List Call)) : Sys where
  mtx := none
  cout := []
  threads := progs.map (fun p => { prog := p, phase := .idle })
  trace := []

/-- One atomic step of thread `t`; `none` when `t` cannot move (no such thread, nothing
left to call, or blocked in the constructor of `lck`).

* `idle`: `std::lock_guard<std::mutex> lck(mut);` needs the mutex unlocked, locks it.
* `locked`: the forwarded call `bank.f(...)` is entered.
* `inBank (tok :: rest)`: the next insertion into `std::cout`.
* `inBank []`: the `Bank` function has returned; `lck` is destroyed, which unlocks, and
  the `BankMonitor` function returns. -/
def Sys.step (t : Tid) (s : Sys) : Option Sys :=
  match s.threads[t]? with
  | none => none
  | some th =>
    match th.prog, th.phase with
    | [], _ => none
    | _ :: _, .idle =>
      if s.mtx = none then
        some { s with mtx := some t,
                      threads := s.threads.set t { th with phase := .locked },
                      trace := s.trace ++ [.acquire t] }
      else none
    | c :: _, .locked =>
      some { s with threads := s.threads.set t
                      { th with phase := .inBank (Bank.body (BankMonitor.forward c)) },
                    trace := s.trace ++ [.bankCall t (BankMonitor.forward c)] }
    | _ :: _, .inBank (tok :: rest) =>
      some { s with cout := s.cout ++ [tok],
                    threads := s.threads.set t { th with phase := .inBank rest } }
    | _ :: cs, .inBank [] =>
      some { s with mtx := none,
                    threads := s.threads.set t { prog := cs, phase := .idle },
                    trace := s.trace ++ [.release t] }

/-- Run a schedule: the listed threads step one after the other. -/
def Sys.run : List Tid → Sys → Option Sys
  | [], s => some s
  | t :: ts, s => (Sys.step t s).bind (Sys.run ts)

/-- Every thread has returned from its last call. -/
def Sys.finished (s : Sys) : Prop := ∀ th ∈ s.threads, th.prog = [] ∧ th.phase = .idle

instance (s : Sys) : Decidable s.finished := by unfold Sys.finished; infer_instance

/-- The owner of the mutex according to a trace: the thread of the last `acquire` when no
`release` comes after it. -/
def holder (tr : List Event) : Option Tid :=
  tr.foldl (fun h e =>
    match e with
    | .acquire t => some t
    | .release _ => none
    | .bankCall _ _ => h) none

/-- An `acquire` or a `release`. -/
def Event.onMutex : Event → Bool
  | .acquire _ => true
  | .release _ => true
  | .bankCall _ _ => false

/-- The calls of `thr1` in `main`. -/
def main_thr1 : List Call :=
  [.debit "Peter" 1000, .credit "Paul" 1000, .print "Peter", .print "Paul"]

/-- Calls made one at a time, each running to its end before the next starts: call `c`
of the pair `(t, c)` is made by thread `t`.  `none` when a call blocks or throws. -/
def serialRun (bank : BankImpl) : List (Tid × Call) → MonState → Option MonState
  | [], s => some s
  | (t, c) :: rest, s =>
    match BankMonitor.call bank t c s with
    | some (.ok (), s1) => serialRun bank rest s1
    | _ => none

/-- The calls of thread `t` in a serial order, in that order. -/
def callsOf (t : Tid) (order : List (Tid × Call)) : List Call :=
  (order.filter (fun p => p.1 = t)).map (fun p => p.2)

/-- The number of atomic steps a thread takes for one call: lock, enter, one per
insertion, unlock. -/
def Call.steps (c : Call) : Nat := (Bank.body (BankMonitor.forward c)).length + 3

/-- The console after the calls of a serial order, each forwarded call printing its
whole body before the next call starts. -/
def serialOut (order : List (Tid × Call)) : Cout :=
  order.flatMap (fun p => Bank.body (BankMonitor.forward p.2))

/-- The calls a thread has not started yet. -/
def Thread.pending (th : Thread) : List Call :=
  match th.phase with
  | .idle => th.prog
  | _ => th.prog.tail

/-- The calls thread `t` of a list of threads has not started yet. -/
def pendingAt (threads : List Thread) (t : Tid) : List Call :=
  match threads[t]? with
  | some th => th.pending
  | none => []

/-- The number of atomic steps of a list of calls. -/
def progSteps (cs : List Call) : Nat := (cs.map Call.steps).sum

/-- The number of atomic steps a thread still has to take. -/
def Thread.fuel (th : Thread) : Nat :=
  match th.prog, th.phase with
  | [], _ => 0
  | c :: cs, .idle => c.steps + progSteps cs
  | c :: cs, .locked => c.steps - 1 + progSteps cs
  | _ :: cs, .inBank rest => rest.length + 1 + progSteps cs

/-- The number of atomic steps the threads still have to take. -/
def Sys.fuel (s : Sys) : Nat := (s.threads.map Thread.fuel).sum

/-- A state reached in the proofs below as an example: thread 1 has finished
`print("Paul")`, thread 0 is inside `debit("Peter", 1000)` and has entered
`Bank::debit`. -/
def demoMid : Sys where
  mtx := some 0
  cout := Bank.print "Paul"
  threads := [{ prog := [.debit "Peter" 1000], phase := .inBank (Bank.debit "Peter" 1000) },
              { prog := [], phase := .idle }]
  trace := [.acquire 1, .bankCall 1 (.print "Paul"), .release 1,
            .acquire 0, .bankCall 0 (.debit "Peter" 1000)]

/-- A state reached in the proofs below as an example: thread 0 has made `debit("Peter",
1000)` and `credit("Paul", 1000)`, and thread 1 has made `print("Peter")` between the
two. -/
def demoEnd : Sys where
  mtx := none
  cout := Bank.debit "Peter" 1000 ++ Bank.print "Peter" ++ Bank.debit "Paul" 1000
  threads := [{ prog := [], phase := .idle }, { prog := [], phase := .idle }]
  trace := [.acquire 0, .bankCall 0 (.debit "Peter" 1000), .release 0,
            .acquire 1, .bankCall 1 (.print "Peter"), .release 1,
            .acquire 0, .bankCall 0 (.debit "Paul" 1000), .release 0]

/-! ## `future_promise_threads/main.cpp` -/

/-- Modelled from the spec: the state of the shared state block of a one-shot channel
(`std::promise<int>` / `std::future<int>`, library classes whose code is not part of the
repository): `Empty`, `Ready(value)` or `Failed(error)`. -/
inductive ChanState where
  | empty
  | ready (value : Int)
  | failed (error : Err)
deriving DecidableEq, Repr

/-- Modelled from the spec: the shared state block of a one-shot channel in single-consumer
mode, as seen through the promise `px` and the future `fx` that refer to it: its `state`
and the flag `consumed` of the reader handle. -/
structure Channel where
  state : ChanState
  consumed : Bool
deriving DecidableEq, Repr

/-- Modelled from the spec: a channel as established, `std::promise<int> prom` with
`prom.get_future()`: `Empty`, nothing retrieved yet. -/
def Channel.fresh : Channel := { state := .empty, consumed := false }

/-- Modelled from the spec: `Ready` and `Failed` are the terminal states. -/
def ChanState.terminal : ChanState → Bool
  | .empty => false
  | .ready _ => true
  | .failed _ => true

/-- Modelled from the spec: `setValue(v)` (`std::promise::set_value`) "fails with
`AlreadySettledError` if the state is not `Empty`; otherwise transitions state to
`Ready(v)`". -/
def Channel.setValue (v : Int) (c : Channel) : Except Err Unit × Channel :=
  match c.state with
  | .empty => (.ok (), { c with state := .ready v })
  | _ => (.error .alreadySettled, c)

/-- Modelled from the spec: `setError(e)` (`std::promise::set_exception`): "same
preconditions; transitions to `Failed(e)`". -/
def Channel.setError (e : Err) (c : Channel) : Except Err Unit × Channel :=
  match c.state with
  | .empty => (.ok (), { c with state := .failed e })
  | _ => (.error .alreadySettled, c)

/-- Modelled from the spec: `get()` (`std::future::get`) "blocks the calling thread of
execution until state leaves `Empty`; on `Ready(v)` returns v; on `Failed(e)` re-raises e
to the caller.  In single-consumer mode, a second call fails with
`AlreadyConsumedError`".  `none`: the call has not returned. -/
def Channel.get (c : Channel) : Option (Except Err Int × Channel) :=
  match c.state with
  | .empty => none
  | .ready v =>
    if c.consumed then some (.error .alreadyConsumed, c)
    else some (.ok v, { c with consumed := true })
  | .failed e =>
    if c.consumed then some (.error .alreadyConsumed, c)
    else some (.error e, { c with consumed := true })

/-- The insertions of `std::cout << "Promise sets shared state to: " << x << std::endl;`. -/
def produce_message (x : Int) : List Tok :=
  [.str "Promise sets shared state to: ", .int x, .endl]

/-- The try block of `produce`, with the statement under the comment "code that may
throw" as a parameter: `code = none` falls through, `code = some e` throws `e` at that
point.  The block sets `x = 42`, sleeps, runs `code`, prints and calls `px.set_value(x)`.
The result is how the block is left, with the channel and the console at that moment. -/
def produceTry (code : Option Err) (px : Channel) (out : Cout) :
    Except Err Unit × Channel × Cout :=
  let x : Int := 42
  match code with
  | some e => (.error e, px, out)
  | none =>
    match Channel.setValue x px with
    | (r, px1) => (r, px1, out ++ produce_message x)

/-- The function `produce` around `produceTry`: an exception of the try block enters
`catch (...)`, which calls `px.set_exception(std::current_exception())`; an exception of
the handler leaves `produce`. -/
def produceWith (code : Option Err) (px : Channel) (out : Cout) :
    Except Err Unit × Channel × Cout :=
  match produceTry code px out with
  | (.ok (), px1, out1) => (.ok (), px1, out1)
  | (.error e, px1, out1) =>
    match Channel.setError e px1 with
    | (r, px2) => (r, px2, out1)

/-- The statement `if (0) { throw std::out_of_range("Oops"); }` of `produce`. -/
def produce_code : Option Err :=
  if (0 : Int) ≠ 0 then some (.outOfRange "Oops") else none

/-- The function `produce`. -/
def produce (px : Channel) (out : Cout) : Except Err Unit × Channel × Cout :=
  produceWith produce_code px out

/-- The insertions of `consume` before `fx.get()`. -/
def consume_announce : List Tok := [.str "Future calling get()......", .endl]

/-- The insertions of `consume` after `fx.get()` returned `x`. -/
def consume_answer (x : Int) : List Tok :=
  [.str "Future returns from calling get()", .endl, .str "The answer is ", .int x, .endl]

/-- The insertions of the handler `catch (std::exception &e)` of `consume`. -/
def consume_caught (what : String) : List Tok :=
  [.str "Exception caught: ", .str what, .endl]

/-- The function `consume`.  `none`: `fx.get()` has not returned.  An exception that is
not a `std::exception` passes the handler and leaves `consume`. -/
def consume (fx : Channel) (out : Cout) : Option (Except Err Unit × Channel × Cout) :=
  match Channel.get fx with
  | none => none
  | some (.ok x, fx1) => some (.ok (), fx1, out ++ consume_announce ++ consume_answer x)
  | some (.error e, fx1) =>
    match e.what with
    | some w => some (.ok (), fx1, out ++ consume_announce ++ consume_caught w)
    | none => some (.error e, fx1, out ++ consume_announce)

/-! ### `thr_producer` and `thr_consumer` of `main` -/

/-- Where the producer thread stands in `produce`: before the try block, inside it with
insertions left to make before `px.set_value(x)`, in the handler with the exception
caught, returned, or left by an exception. -/
inductive ProducerPc where
  | entry
  | printing (rest : List Tok)
  | handler (e : Err)
  | returned
  | escaped (e : Err)
deriving DecidableEq, Repr

/-- Where the consumer thread stands in `consume`: before `fx.get()` with insertions
left to make, after it with insertions left to make, returned, or left by an
exception. -/
inductive ConsumerPc where
  | announcing (rest : List Tok)
  | reporting (rest : List Tok)
  | returned
  | escaped (e : Err)
deriving DecidableEq, Repr

/-- The two threads of `main`. -/
inductive Role where
  | producer
  | consumer
deriving DecidableEq, Repr

/-- The producer and the consumer thread around one channel.  `got` is the outcome of
`fx.get()` once that call has come back: the value assigned to `x`, or the exception. -/
structure Pair where
  chan : Channel
  cout : Cout
  ppc : ProducerPc
  cpc : ConsumerPc
  got : Option (Except Err Int)
deriving DecidableEq, Repr

/-- Both threads at the start of their task functions, on channel `c`. -/
def Pair.init (c : Channel) : Pair where
  chan := c
  cout := []
  ppc := .entry
  cpc := .announcing consume_announce
  got := none

/-- One atomic step of the producer thread running `produceWith code`.

* `entry`: `x = 42`, the sleep, and `code`: on to the print, or into the handler.
* `printing (tok :: rest)`: the next insertion.
* `printing []`: `px.set_value(x)`; its failure enters the handler.
* `handler e`: `px.set_exception(...)` with the exception caught; its failure leaves
  `produce`. -/
def Pair.stepProducer (code : Option Err) (s : Pair) : Option Pair :=
  match s.ppc with
  | .entry =>
    match code with
    | none => some { s with ppc := .printing (produce_message 42) }
    | some e => some { s with ppc := .handler e }
  | .printing (tok :: rest) => some { s with cout := s.cout ++ [tok], ppc := .printing rest }
  | .printing [] =>
    match Channel.setValue 42 s.chan with
    | (.ok (), c) => some { s with chan := c, ppc := .returned }
    | (.error e, c) => some { s with chan := c, ppc := .handler e }
  | .handler e =>
    match Channel.setError e s.chan with
    | (.ok (), c) => some { s with chan := c, ppc := .returned }
    | (.error e1, c) => some { s with chan := c, ppc := .escaped e1 }
  | .returned => none
  | .escaped _ => none

/-- One atomic step of the consumer thread running `consume`.

* `announcing (tok :: rest)`: the next insertion before the call of `get`.
* `announcing []`: `fx.get()`; no step while it blocks.  A value goes to `x`; an
  exception goes to the handler when it is a `std::exception` and leaves `consume`
  otherwise.
* `reporting (tok :: rest)`: the next insertion after the call of `get`. -/
def Pair.stepConsumer (s : Pair) : Option Pair :=
  match s.cpc with
  | .announcing (tok :: rest) =>
    some { s with cout := s.cout ++ [tok], cpc := .announcing rest }
  | .announcing [] =>
    match Channel.get s.chan with
    | none => none
    | some (.ok x, c) =>
      some { s with chan := c, got := some (.ok x), cpc := .reporting (consume_answer x) }
    | some (.error e, c) =>
      match e.what with
      | some w =>
        some { s with chan := c, got := some (.error e), cpc := .reporting (consume_caught w) }
      | none => some { s with chan := c, got := some (.error e), cpc := .escaped e }
  | .reporting (tok :: rest) =>
    some { s with cout := s.cout ++ [tok], cpc := .reporting rest }
  | .reporting [] => some { s with cpc := .returned }
  | .returned => none
  | .escaped _ => none

/-- One atomic step of the named thread. -/
def Pair.step (code : Option Err) : Role → Pair → Option Pair
  | .producer, s => Pair.stepProducer code s
  | .consumer, s => Pair.stepConsumer s

/-- Run a schedule of the two threads. -/
def Pair.run (code : Option Err) : List Role → Pair → Option Pair
  | [], s => some s
  | r :: rs, s => (Pair.step code r s).bind (Pair.run code rs)

/-- Both task functions are over: returned, or left by an exception. -/
def Pair.done (s : Pair) : Bool :=
  (match s.ppc with
   | .returned => true
   | .escaped _ => true
   | _ => false) &&
  (match s.cpc with
   | .returned => true
   | .escaped _ => true
   | _ => false)

/-! ### `multiply_2` and the doubling pass of `main` -/

/-- The value of an `int` expression whose mathematical value is `z`, on 32-bit
two-complement arithmetic. -/
def wrapInt (z : Int) : Int := (z + 2 ^ 31) % 2 ^ 32 - 2 ^ 31

/-- The number `z` is a value of type `int`. -/
def fitsInt (z : Int) : Prop := -(2 ^ 31) ≤ z ∧ z < 2 ^ 31

instance (z : Int) : Decidable (fitsInt z) := by unfold fitsInt; infer_instance

/-- The function `multiply_2` on the `int` its argument refers to: the first component is
the value read through the returned reference, the second the value of `x` afterwards. -/
def multiply_2 (x : Int) : Int × Int :=
  let x1 := wrapInt (x * 2)
  (x1, x1)

/-- The lambda `[] (int &x) {x = x * 2;}` of `main`: the value of `x` afterwards. -/
def main_lambda (x : Int) : Int := wrapInt (x * 2)

/-- The loop of `std::for_each(first, last, f)` with `n` positions left, the next one
being `i`: `f` is applied to the element at `i` in place, then the iterator advances. -/
def for_each_from (f : Int → Int) : Nat → Nat → List Int → List Int
  | 0, _, v => v
  | n + 1, i, v =>
    match v[i]? with
    | some x => for_each_from f n (i + 1) (v.set i (f x))
    | none => v

/-- The call `std::for_each(v.begin(), v.end(), f)` for an `f` that updates its argument
in place: the vector afterwards. -/
def for_each (v : List Int) (f : Int → Int) : List Int := for_each_from f v.length 0 v

/-- The vector `my_vec` of `main` after the doubling pass. -/
def main_my_vec : List Int := for_each [1, 2, 3, 4, 45] main_lambda

/-! ### Notions used in the statements about the channel -/

/-- The state the channel of `main` ends in when the producer runs `produceWith code`. -/
def expectedState : Option Err → ChanState
  | none => .ready 42
  | some e => .failed e

/-- The outcome of `fx.get()` when the producer runs `produceWith code`. -/
def expectedGot : Option Err → Except Err Int
  | none => .ok 42
  | some e => .error e

/-- An upper bound on the atomic steps the producer thread still takes. -/
def ProducerPc.fuel : ProducerPc → Nat
  | .entry => 6
  | .printing rest => rest.length + 2
  | .handler _ => 1
  | .returned => 0
  | .escaped _ => 0

/-- An upper bound on the atomic steps the consumer thread still takes. -/
def ConsumerPc.fuel : ConsumerPc → Nat
  | .announcing rest => rest.length + 7
  | .reporting rest => rest.length + 1
  | .returned => 0
  | .escaped _ => 0

/-- An upper bound on the atomic steps the two threads still take. -/
def Pair.fuel (s : Pair) : Nat := s.ppc.fuel + s.cpc.fuel

/-- An operation on a channel: one of the three primitives, or a call of `produceWith`. -/
inductive ChanOp where
  | setValue (v : Int)
  | setError (e : Err)
  | get
  | produce (code : Option Err)
deriving DecidableEq, Repr

/-- The channel after an operation; a `get` that blocks leaves it as it is. -/
def ChanOp.apply : ChanOp → Channel → Channel
  | .setValue v, c => (c.setValue v).2
  | .setError e, c => (c.setError e).2
  | .get, c =>
    match c.get with
    | some (_, c1) => c1
    | none => c
  | .produce code, c => (produceWith code c []).2.1

/-- The end of an execution of `main` in which `thr_consumer` first blocks in `fx.get()`
and `thr_producer` then sets the value. -/
def demoPairEnd : Pair where
  chan := { state := .ready 42, consumed := true }
  cout := consume_announce ++ produce_message 42 ++ consume_answer 42
  ppc := .returned
  cpc := .returned
  got := some (.ok 42)

/-- A channel that already holds the value 7, its future not yet consumed. -/
def settled7 : Channel := { state := .ready 7, consumed := false }

/-! ### Invariants -/

/-- The invariant behind mutual exclusion: a thread inside a member function owns the
mutex; the mutex is owned by the holder of the trace; every call on the wrapped `Bank`
was made by the holder of the trace before it. -/
structure Sys.Safe (s : Sys) : Prop where
  own : ∀ t th, s.threads[t]? = some th → th.phase ≠ .idle → s.mtx = some t
  hold : holder s.trace = s.mtx
  calls : ∀ pre t c post, s.trace = pre ++ Event.bankCall t c :: post → holder pre = some t

/-- The invariant behind serializability, for a serial order `lin` of the calls started so
far: per thread, `lin` and the calls not yet started make up the program; with the mutex
unlocked the console is the serial output of `lin`; with the mutex owned by `t` the last
call of `lin` is the current call of `t` and the console is the serial output of the calls
before it followed by the insertions the current call has made. -/
structure Sys.Lin (progs : List (List Call)) (s : Sys) (lin : List (Tid × Call)) : Prop where
  order : ∀ t, callsOf t lin ++ pendingAt s.threads t = progs.getD t []
  free : s.mtx = none → s.cout = serialOut lin
  busy : ∀ t, s.mtx = some t → ∃ th c cs lin0 emitted,
    s.threads[t]? = some th ∧ th.prog = c :: cs ∧ lin = lin0 ++ [(t, c)] ∧
    s.cout = serialOut lin0 ++ emitted ∧
    ((th.phase = .locked ∧ emitted = []) ∨
      ∃ rest, th.phase = .inBank rest ∧ emitted ++ rest = Bank.body (BankMonitor.forward c))

/-- The invariant of the two threads of `main` on a fresh channel, the producer running
`produceWith code`: the channel is `Empty` until the producer has returned and is in the
expected state from then on, and `fx.get()` has come back only with the expected
outcome, from the channel in the expected state. -/
structure Pair.Inv (code : Option Err) (s : Pair) : Prop where
  prod : match s.ppc with
    | .entry => s.chan.state = .empty
    | .printing _ => code = none ∧ s.chan.state = .empty
    | .handler e => code = some e ∧ s.chan.state = .empty
    | .returned => s.chan.state = expectedState code
    | .escaped _ => False
  cons : match s.cpc with
    | .announcing _ => s.got = none ∧ s.chan.consumed = false
    | .reporting _ =>
      s.got = some (expectedGot code) ∧ s.chan.state = expectedState code ∧
        s.chan.consumed = true
    | .returned =>
      s.got = some (expectedGot code) ∧ s.chan.state = expectedState code ∧
        s.chan.consumed = true
    | .escaped e =>
      s.got = some (expectedGot code) ∧ s.chan.state = expectedState code ∧
        s.chan.consumed = true ∧ code = some e ∧ e.what = none

/-! ## Theorems: `Monitor_Class/main.cpp` -/

theorem lockGuardScope_unlocked (t : Tid) (body : BankOp) (s : MonState) (h : s.mtx = none) :
    lockGuardScope t body s
      = some ((body s.cout).1, { mtx := none, cout := (body s.cout).2 }) := by
  unfold lockGuardScope Mutex.lock
  simp only [h, if_true]
  rcases hb : body s.cout with ⟨r, out⟩
  cases r with
  | ok u => cases u; simp [Mutex.unlock]
  | error e => simp [Mutex.unlock]

theorem BankMonitor.call_unlocked (bank : BankImpl) (t : Tid) (c : Call) (s : MonState)
    (h : s.mtx = none) :
    BankMonitor.call bank t c s
      = some ((bank.call (BankMonitor.forward c) s.cout).1,
              { mtx := none, cout := (bank.call (BankMonitor.forward c) s.cout).2 }) := by
  cases c <;>
    simp only [BankMonitor.call, BankMonitor.debit, BankMonitor.credit, BankMonitor.print,
      BankMonitor.forward, BankImpl.call, lockGuardScope_unlocked _ _ _ h]

theorem Bank.ops_call (c : Call) (out : Cout) :
    Bank.ops.call c out = (.ok (), out ++ Bank.body c) := by
  cases c <;> rfl

/-- C1, where it breaks: `BankMonitor::debit` and `BankMonitor::print` print what
`Bank::debit` and `Bank::print` print, but `BankMonitor::credit` prints what `Bank::debit`
prints, which is never what `Bank::credit` prints; for ("Paul", 1000) the text is
"Debiting 1000 from Paul" where `Bank::credit` gives "Crediting 1000 from Paul", and the
calls of `thr1` in `main` print two lines that start with "Debiting". -/
theorem BankMonitor.credit_prints_debit (t : Tid) (name : String) (amount : Int) :
    outputOf (BankMonitor.debit Bank.ops t name amount) = some (Bank.debit name amount) ∧
    outputOf (BankMonitor.print Bank.ops t name) = some (Bank.print name) ∧
    outputOf (BankMonitor.credit Bank.ops t name amount) = some (Bank.debit name amount) ∧
    outputOf (BankMonitor.credit Bank.ops t name amount) ≠ some (Bank.credit name amount) ∧
    (outputOf (BankMonitor.credit Bank.ops t "Paul" 1000)).map consoleText
      = some "Debiting 1000 from Paul\n" ∧
    consoleText (Bank.credit "Paul" 1000) = "Crediting 1000 from Paul\n" ∧
    (serialRun Bank.ops (main_thr1.map (fun c => (0, c))) { mtx := none, cout := [] }).map
        (fun s => consoleText s.cout)
      = some ("Debiting 1000 from Peter\nDebiting 1000 from Paul\n"
          ++ "Peter\x27s transaction went through\nPaul\x27s transaction went through\n") := by
  have hd : outputOf (BankMonitor.debit Bank.ops t name amount)
      = some (Bank.debit name amount) := rfl
  have hc : ∀ (n : String) (a : Int),
      outputOf (BankMonitor.credit Bank.ops t n a) = some (Bank.debit n a) := fun _ _ => rfl
  refine ⟨hd, rfl, hc _ _, ?_, ?_, by decide, by decide⟩
  · rw [hc]
    intro h
    have h1 : Tok.str "Debiting " = Tok.str "Crediting " := by
      simp [Bank.debit, Bank.credit] at h
    exact absurd h1 (by decide)
  · rw [hc]; decide

/-- C3: a `BankMonitor` member function started by thread `t` with the mutex unlocked
comes back with the mutex unlocked, whether the forwarded member function of the wrapped
bank returns or throws; its outcome is the outcome of the forwarded call, so an exception
`e` of the wrapped bank arrives at the caller as `e`, in a state where the mutex is
already unlocked. -/
theorem BankMonitor.unlocked_on_every_exit (bank : BankImpl) (t : Tid) (c : Call)
    (s : MonState) (h : s.mtx = none) :
    ∃ r s1, BankMonitor.call bank t c s = some (r, s1) ∧ s1.mtx = none ∧
      r = (bank.call (BankMonitor.forward c) s.cout).1 ∧
      s1.cout = (bank.call (BankMonitor.forward c) s.cout).2 ∧
      ∀ e, (bank.call (BankMonitor.forward c) s.cout).1 = .error e →
        BankMonitor.call bank t c s = some (.error e, s1) := by
  refine ⟨_, _, BankMonitor.call_unlocked bank t c s h, rfl, rfl, rfl, ?_⟩
  intro e he
  rw [BankMonitor.call_unlocked bank t c s h, he]

theorem BankMonitor.unlocked_on_every_exit_witness :
    ({ mtx := none, cout := [] } : MonState).mtx = none ∧
    ∃ r s1, BankMonitor.call throwingBank 0 (.credit "Paul" 1000) { mtx := none, cout := [] }
        = some (r, s1) ∧ s1.mtx = none ∧
      r = (throwingBank.call (BankMonitor.forward (.credit "Paul" 1000)) []).1 ∧
      s1.cout = (throwingBank.call (BankMonitor.forward (.credit "Paul" 1000)) []).2 ∧
      ∀ e, (throwingBank.call (BankMonitor.forward (.credit "Paul" 1000)) []).1 = .error e →
        BankMonitor.call throwingBank 0 (.credit "Paul" 1000) { mtx := none, cout := [] }
          = some (.error e, s1) :=
  ⟨rfl, BankMonitor.unlocked_on_every_exit throwingBank 0 (.credit "Paul" 1000)
    { mtx := none, cout := [] } rfl⟩

/-! ### Every step of a thread, by cases -/

/-- The four kinds of step a thread can take. -/
theorem Sys.step_cases {t : Tid} {s s1 : Sys} (h : Sys.step t s = some s1) :
    ∃ th c cs, s.threads[t]? = some th ∧ th.prog = c :: cs ∧
      ((th.phase = .idle ∧ s.mtx = none ∧
          s1 = { s with mtx := some t,
                        threads := s.threads.set t { th with phase := .locked },
                        trace := s.trace ++ [.acquire t] }) ∨
       (th.phase = .locked ∧
          s1 = { s with threads := s.threads.set t
                          { th with phase := .inBank (Bank.body (BankMonitor.forward c)) },
                        trace := s.trace ++ [.bankCall t (BankMonitor.forward c)] }) ∨
       (∃ tok rest, th.phase = .inBank (tok :: rest) ∧
          s1 = { s with cout := s.cout ++ [tok],
                        threads := s.threads.set t { th with phase := .inBank rest } }) ∨
       (th.phase = .inBank [] ∧
          s1 = { s with mtx := none,
                        threads := s.threads.set t { prog := cs, phase := .idle },
                        trace := s.trace ++ [.release t] })) := by
  unfold Sys.step at h
  cases hth : s.threads[t]? with
  | none => simp [hth] at h
  | some th =>
    simp only [hth] at h
    rcases th with ⟨prog, phase⟩
    cases prog with
    | nil => simp at h
    | cons c cs =>
      refine ⟨⟨c :: cs, phase⟩, c, cs, rfl, rfl, ?_⟩
      cases phase with
      | idle =>
        by_cases hm : s.mtx = none
        · simp only [hm, if_true, Option.some.injEq] at h
          exact Or.inl ⟨rfl, hm, by rw [← h]⟩
        · simp [hm] at h
      | locked =>
        simp only [Option.some.injEq] at h
        exact Or.inr (Or.inl ⟨rfl, h.symm⟩)
      | inBank rest =>
        cases rest with
        | nil =>
          simp only [Option.some.injEq] at h
          exact Or.inr (Or.inr (Or.inr ⟨rfl, h.symm⟩))
        | cons tok rest =>
          simp only [Option.some.injEq] at h
          exact Or.inr (Or.inr (Or.inl ⟨tok, rest, rfl, h.symm⟩))

theorem holder_snoc (tr : List Event) (e : Event) :
    holder (tr ++ [e]) =
      match e with
      | .acquire t => some t
      | .release _ => none
      | .bankCall _ _ => holder tr := by
  unfold holder
  rw [List.foldl_append]
  cases e <;> rfl

/-- A trace whose holder is `t` ends with `acquire t` followed by no event on the
mutex. -/
theorem holder_eq_some {tr : List Event} {t : Tid} (h : holder tr = some t) :
    ∃ pre mid, tr = pre ++ Event.acquire t :: mid ∧ ∀ e ∈ mid, e.onMutex = false := by
  induction tr using List.reverseRecOn with
  | nil => simp [holder] at h
  | append_singleton tr e ih =>
    rw [holder_snoc] at h
    cases e with
    | acquire u =>
      simp only [Option.some.injEq] at h
      subst h
      exact ⟨tr, [], rfl, by simp⟩
    | release u => simp at h
    | bankCall u c =>
      obtain ⟨pre, mid, hpre, hmid⟩ := ih h
      refine ⟨pre, mid ++ [.bankCall u c], by simp [hpre], ?_⟩
      intro e he
      rcases List.mem_append.1 he with he | he
      · exact hmid e he
      · simp only [List.mem_singleton] at he
        subst he
        rfl

theorem Sys.safe_init (progs : List (List Call)) : (Sys.init progs).Safe := by
  refine ⟨?_, rfl, ?_⟩
  · intro t th hth hph
    simp only [Sys.init, List.getElem?_map] at hth
    cases hp : progs[t]? with
    | none => simp [hp] at hth
    | some p =>
      simp only [hp, Option.map_some', Option.some.injEq] at hth
      subst hth
      exact absurd rfl hph
  · intro pre t c post h
    simp [Sys.init] at h

theorem trace_snoc_call {tr pre post : List Event} {e : Event} {t : Tid} {c : Call}
    (h : tr ++ [e] = pre ++ Event.bankCall t c :: post) :
    (post = [] ∧ tr = pre ∧ e = Event.bankCall t c) ∨
      ∃ post1, post = post1 ++ [e] ∧ tr = pre ++ Event.bankCall t c :: post1 := by
  rcases List.eq_nil_or_concat post with hp | ⟨post1, b, hp⟩
  · subst hp
    left
    have h1 : tr ++ [e] = pre ++ [Event.bankCall t c] := h
    have h2 := List.append_inj' h1 rfl
    exact ⟨rfl, h2.1, by simpa using h2.2⟩
  · right
    rw [List.concat_eq_append] at hp
    subst hp
    have h1 : tr ++ [e] = (pre ++ Event.bankCall t c :: post1) ++ [b] := by
      rw [h]; simp
    have h2 := List.append_inj' h1 rfl
    have h3 : e = b := by simpa using h2.2
    subst h3
    exact ⟨post1, rfl, h2.1⟩

theorem Sys.safe_step {t : Tid} {s s1 : Sys} (hs : s.Safe) (h : Sys.step t s = some s1) :
    s1.Safe := by
  obtain ⟨th, c, cs, hth, hprog, hcase⟩ := Sys.step_cases h
  have hlt : t < s.threads.length := by
    by_contra hn
    rw [List.getElem?_eq_none (Nat.le_of_not_lt hn)] at hth
    cases hth
  rcases hcase with ⟨hph, hm, rfl⟩ | ⟨hph, rfl⟩ | ⟨tok, rest, hph, rfl⟩ | ⟨hph, rfl⟩
  · -- acquire
    refine ⟨?_, ?_, ?_⟩
    · intro u thu hu hphu
      simp only [List.getElem?_set] at hu
      by_cases htu : t = u
      · subst htu; rfl
      · simp only [htu, if_false] at hu
        have := hs.own u thu hu hphu
        rw [hm] at this
        cases this
    · simp [holder_snoc]
    · intro pre u d post htr
      rcases trace_snoc_call htr with ⟨_, _, he⟩ | ⟨post1, _, htr1⟩
      · cases he
      · exact hs.calls pre u d post1 htr1
  · -- the forwarded call
    have hown : s.mtx = some t := hs.own t th hth (by rw [hph]; simp)
    refine ⟨?_, ?_, ?_⟩
    · intro u thu hu hphu
      simp only [List.getElem?_set] at hu
      by_cases htu : t = u
      · subst htu; exact hown
      · simp only [htu, if_false] at hu
        exact hs.own u thu hu hphu
    · simp only [holder_snoc]; exact hs.hold
    · intro pre u d post htr
      rcases trace_snoc_call htr with ⟨_, hpre, he⟩ | ⟨post1, _, htr1⟩
      · simp only [Event.bankCall.injEq] at he
        rw [← hpre, ← he.1, hs.hold, hown]
      · exact hs.calls pre u d post1 htr1
  · -- an insertion
    have hown : s.mtx = some t := hs.own t th hth (by rw [hph]; simp)
    refine ⟨?_, hs.hold, hs.calls⟩
    intro u thu hu hphu
    simp only [List.getElem?_set] at hu
    by_cases htu : t = u
    · subst htu; exact hown
    · simp only [htu, if_false] at hu
      exact hs.own u thu hu hphu
  · -- release
    have hown : s.mtx = some t := hs.own t th hth (by rw [hph]; simp)
    refine ⟨?_, ?_, ?_⟩
    · intro u thu hu hphu
      simp only [List.getElem?_set] at hu
      by_cases htu : t = u
      · subst htu
        simp only [hlt, if_true, Option.some.injEq] at hu
        subst hu
        exact absurd rfl hphu
      · simp only [htu, if_false] at hu
        have := hs.own u thu hu hphu
        rw [hown] at this
        exact absurd (Option.some.inj this) htu
    · simp [holder_snoc]
    · intro pre u d post htr
      rcases trace_snoc_call htr with ⟨_, _, he⟩ | ⟨post1, _, htr1⟩
      · cases he
      · exact hs.calls pre u d post1 htr1

theorem Sys.safe_run {sched : List Tid} {s s1 : Sys} (hs : s.Safe)
    (h : Sys.run sched s = some s1) : s1.Safe := by
  induction sched generalizing s with
  | nil =>
    simp only [Sys.run, Option.some.injEq] at h
    exact h ▸ hs
  | cons t ts ih =>
    simp only [Sys.run] at h
    cases hst : Sys.step t s with
    | none => simp [hst] at h
    | some s2 =>
      rw [hst] at h
      exact ih (Sys.safe_step hs hst) h

/-- C2: in every execution of threads that call a `BankMonitor`, a call on the wrapped
`Bank` by thread `t` comes after an `acquire` of the mutex by `t` with no `release` (and
no other `acquire`) in between, a thread that is inside the wrapped `Bank` owns the mutex,
and no member function of the `BankMonitor` gets to the `Bank` while the mutex is locked
by somebody else. -/
theorem BankMonitor.bank_calls_hold_mutex (progs : List (List Call)) (sched : List Tid)
    (s : Sys) (h : Sys.run sched (Sys.init progs) = some s) :
    (∀ pre t c post, s.trace = pre ++ Event.bankCall t c :: post →
      holder pre = some t ∧
      ∃ pre1 mid, pre = pre1 ++ Event.acquire t :: mid ∧ ∀ e ∈ mid, e.onMutex = false) ∧
    (∀ t th, s.threads[t]? = some th → th.phase ≠ .idle → s.mtx = some t) ∧
    (∀ (bank : BankImpl) (t : Tid) (c : Call) (m : MonState), m.mtx ≠ none →
      BankMonitor.call bank t c m = none) := by
  have hs : s.Safe := Sys.safe_run (Sys.safe_init progs) h
  refine ⟨?_, hs.own, ?_⟩
  · intro pre t c post htr
    have hh := hs.calls pre t c post htr
    exact ⟨hh, holder_eq_some hh⟩
  · intro bank t c m hm
    cases c <;>
      simp [BankMonitor.call, BankMonitor.debit, BankMonitor.credit, BankMonitor.print,
        lockGuardScope, Mutex.lock, hm]

theorem BankMonitor.bank_calls_hold_mutex_witness :
    Sys.run [1, 1, 1, 1, 1, 1, 0, 0] (Sys.init [[.debit "Peter" 1000], [.print "Paul"]])
      = some demoMid ∧
    ((∀ pre t c post, demoMid.trace = pre ++ Event.bankCall t c :: post →
      holder pre = some t ∧
      ∃ pre1 mid, pre = pre1 ++ Event.acquire t :: mid ∧ ∀ e ∈ mid, e.onMutex = false) ∧
    (∀ t th, demoMid.threads[t]? = some th → th.phase ≠ .idle → demoMid.mtx = some t) ∧
    (∀ (bank : BankImpl) (t : Tid) (c : Call) (m : MonState), m.mtx ≠ none →
      BankMonitor.call bank t c m = none)) :=
  ⟨by decide, BankMonitor.bank_calls_hold_mutex [[.debit "Peter" 1000], [.print "Paul"]]
    [1, 1, 1, 1, 1, 1, 0, 0] demoMid (by decide)⟩

/-! ### Serial orders -/

theorem serialOut_append (a b : List (Tid × Call)) :
    serialOut (a ++ b) = serialOut a ++ serialOut b := by
  simp [serialOut, List.flatMap_append]

theorem serialOut_single (t : Tid) (c : Call) :
    serialOut [(t, c)] = Bank.body (BankMonitor.forward c) := by
  simp [serialOut]

theorem callsOf_snoc_self (t : Tid) (c : Call) (order : List (Tid × Call)) :
    callsOf t (order ++ [(t, c)]) = callsOf t order ++ [c] := by
  simp [callsOf, List.filter_append]

theorem callsOf_snoc_other {t u : Tid} (htu : t ≠ u) (c : Call) (order : List (Tid × Call)) :
    callsOf u (order ++ [(t, c)]) = callsOf u order := by
  simp [callsOf, List.filter_append, htu]

theorem pendingAt_set_self {threads : List Thread} {t : Tid} (hlt : t < threads.length)
    (th : Thread) : pendingAt (threads.set t th) t = th.pending := by
  simp [pendingAt, List.getElem?_set, hlt]

theorem pendingAt_set_other {threads : List Thread} {t u : Tid} (htu : t ≠ u) (th : Thread) :
    pendingAt (threads.set t th) u = pendingAt threads u := by
  simp [pendingAt, List.getElem?_set, htu]

theorem pendingAt_of_getElem? {threads : List Thread} {t : Tid} {th : Thread}
    (h : threads[t]? = some th) : pendingAt threads t = th.pending := by
  simp [pendingAt, h]

/-- The serial run of an order on the source `Bank` prints `serialOut` of the order and
leaves the mutex unlocked. -/
theorem serialRun_bank (order : List (Tid × Call)) (out : Cout) :
    serialRun Bank.ops order { mtx := none, cout := out }
      = some { mtx := none, cout := out ++ serialOut order } := by
  induction order generalizing out with
  | nil => simp [serialRun, serialOut]
  | cons p rest ih =>
    rcases p with ⟨t, c⟩
    have hc := BankMonitor.call_unlocked Bank.ops t c { mtx := none, cout := out } rfl
    simp only [Bank.ops_call] at hc
    rw [serialRun, hc]
    simp only
    rw [ih]
    simp [serialOut, List.append_assoc]

theorem Sys.lin_init (progs : List (List Call)) : (Sys.init progs).Lin progs [] := by
  refine ⟨?_, fun _ => rfl, ?_⟩
  · intro t
    simp only [callsOf, List.filter_nil, List.map_nil, List.nil_append, pendingAt, Sys.init,
      List.getElem?_map, List.getD_eq_getElem?_getD]
    cases progs[t]? <;> simp [Thread.pending]
  · intro t ht
    simp [Sys.init] at ht

theorem Sys.lin_step {progs : List (List Call)} {t : Tid} {s s1 : Sys}
    {lin : List (Tid × Call)} (hs : s.Safe) (hl : s.Lin progs lin)
    (h : Sys.step t s = some s1) : ∃ lin1, s1.Lin progs lin1 := by
  obtain ⟨th, c, cs, hth, hprog, hcase⟩ := Sys.step_cases h
  have hlt : t < s.threads.length := by
    by_contra hn
    rw [List.getElem?_eq_none (Nat.le_of_not_lt hn)] at hth
    cases hth
  have hpend := pendingAt_of_getElem? hth
  rcases hcase with ⟨hph, hm, rfl⟩ | ⟨hph, rfl⟩ | ⟨tok, rest, hph, rfl⟩ | ⟨hph, rfl⟩
  · -- acquire
    refine ⟨lin ++ [(t, c)], ?_, ?_, ?_⟩
    · intro u
      by_cases htu : t = u
      · subst htu
        have := hl.order t
        rw [hpend] at this
        simp only [pendingAt_set_self hlt, callsOf_snoc_self]
        rw [← this]
        simp [Thread.pending, hph, hprog]
      · simp only [pendingAt_set_other htu, callsOf_snoc_other htu]
        exact hl.order u
    · intro hn; cases hn
    · intro u hu
      simp only [Option.some.injEq] at hu
      subst hu
      refine ⟨{ th with phase := .locked }, c, cs, lin, [], ?_, hprog, rfl, ?_,
        Or.inl ⟨rfl, rfl⟩⟩
      · simp [List.getElem?_set, hlt]
      · simp [hl.free hm]
  · -- the forwarded call
    have hown : s.mtx = some t := hs.own t th hth (by rw [hph]; simp)
    refine ⟨lin, ?_, ?_, ?_⟩
    · intro u
      by_cases htu : t = u
      · subst htu
        have := hl.order t
        rw [hpend] at this
        simp only [pendingAt_set_self hlt]
        rw [← this]
        simp [Thread.pending, hph, hprog]
      · simp only [pendingAt_set_other htu]
        exact hl.order u
    · intro hn
      simp only [hown] at hn
      cases hn
    · intro u hu
      simp only [hown, Option.some.injEq] at hu
      subst hu
      obtain ⟨th0, c0, cs0, lin0, emitted, hth0, hprog0, hlin, hout, hphase⟩ := hl.busy t hown
      rw [hth] at hth0
      cases hth0
      rw [hprog] at hprog0
      cases hprog0
      have hem : emitted = [] := by
        rcases hphase with ⟨_, he⟩ | ⟨rest, hr, _⟩
        · exact he
        · rw [hph] at hr; cases hr
      refine ⟨{ th with phase := .inBank (Bank.body (BankMonitor.forward c)) }, c, cs, lin0,
        [], ?_, hprog, hlin, ?_, Or.inr ⟨_, rfl, rfl⟩⟩
      · simp [List.getElem?_set, hlt]
      · simpa [hem] using hout
  · -- an insertion
    have hown : s.mtx = some t := hs.own t th hth (by rw [hph]; simp)
    refine ⟨lin, ?_, ?_, ?_⟩
    · intro u
      by_cases htu : t = u
      · subst htu
        have := hl.order t
        rw [hpend] at this
        simp only [pendingAt_set_self hlt]
        rw [← this]
        simp [Thread.pending, hph, hprog]
      · simp only [pendingAt_set_other htu]
        exact hl.order u
    · intro hn
      simp only [hown] at hn
      cases hn
    · intro u hu
      simp only [hown, Option.some.injEq] at hu
      subst hu
      obtain ⟨th0, c0, cs0, lin0, emitted, hth0, hprog0, hlin, hout, hphase⟩ := hl.busy t hown
      rw [hth] at hth0
      cases hth0
      rw [hprog] at hprog0
      cases hprog0
      have hem : emitted ++ tok :: rest = Bank.body (BankMonitor.forward c) := by
        rcases hphase with ⟨hl1, _⟩ | ⟨rest1, hr, he⟩
        · rw [hph] at hl1; cases hl1
        · rw [hph] at hr
          cases hr
          exact he
      refine ⟨{ th with phase := .inBank rest }, c, cs, lin0, emitted ++ [tok], ?_, hprog,
        hlin, ?_, Or.inr ⟨rest, rfl, ?_⟩⟩
      · simp [List.getElem?_set, hlt]
      · simp only [hout, List.append_assoc]
      · simpa using hem
  · -- release
    have hown : s.mtx = some t := hs.own t th hth (by rw [hph]; simp)
    obtain ⟨th0, c0, cs0, lin0, emitted, hth0, hprog0, hlin, hout, hphase⟩ := hl.busy t hown
    rw [hth] at hth0
    cases hth0
    rw [hprog] at hprog0
    cases hprog0
    have hem : emitted = Bank.body (BankMonitor.forward c) := by
      rcases hphase with ⟨hl1, _⟩ | ⟨rest1, hr, he⟩
      · rw [hph] at hl1; cases hl1
      · rw [hph] at hr
        cases hr
        simpa using he
    refine ⟨lin, ?_, ?_, ?_⟩
    · intro u
      by_cases htu : t = u
      · subst htu
        have := hl.order t
        rw [hpend] at this
        simp only [pendingAt_set_self hlt]
        rw [← this]
        simp [Thread.pending, hph, hprog]
      · simp only [pendingAt_set_other htu]
        exact hl.order u
    · intro _
      simp only [hout, hlin, serialOut_append, serialOut_single, hem]
    · intro u hu
      cases hu

theorem Sys.lin_run {progs : List (List Call)} {sched : List Tid} {s s1 : Sys}
    {lin : List (Tid × Call)} (hs : s.Safe) (hl : s.Lin progs lin)
    (h : Sys.run sched s = some s1) : ∃ lin1, s1.Lin progs lin1 := by
  induction sched generalizing s lin with
  | nil =>
    simp only [Sys.run, Option.some.injEq] at h
    exact ⟨lin, h ▸ hl⟩
  | cons t ts ih =>
    simp only [Sys.run] at h
    cases hst : Sys.step t s with
    | none => simp [hst] at h
    | some s2 =>
      rw [hst] at h
      obtain ⟨lin2, hl2⟩ := Sys.lin_step hs hl hst
      exact ih (Sys.safe_step hs hst) hl2 h

theorem sum_map_set {α : Type} (f : α → Nat) (l : List α) (t : Nat) (x a : α)
    (h : l[t]? = some a) : ((l.set t x).map f).sum + f a = (l.map f).sum + f x := by
  induction l generalizing t with
  | nil => simp at h
  | cons y ys ih =>
    cases t with
    | zero =>
      simp only [List.getElem?_cons_zero, Option.some.injEq] at h
      subst h
      simp only [List.set_cons_zero, List.map_cons, List.sum_cons]
      omega
    | succ t =>
      simp only [List.getElem?_cons_succ] at h
      have := ih t h
      simp only [List.set_cons_succ, List.map_cons, List.sum_cons]
      omega

/-- Every step uses up one unit of `Sys.fuel`. -/
theorem Sys.fuel_drops {t : Tid} {s s1 : Sys} (h : Sys.step t s = some s1) :
    s1.fuel + 1 = s.fuel := by
  obtain ⟨th, c, cs, hth, hprog, hcase⟩ := Sys.step_cases h
  rcases th with ⟨prog, phase⟩
  simp only at hprog
  subst hprog
  rcases hcase with ⟨hph, _, rfl⟩ | ⟨hph, rfl⟩ | ⟨tok, rest, hph, rfl⟩ | ⟨hph, rfl⟩
  · simp only at hph
    subst hph
    have := sum_map_set Thread.fuel s.threads t ⟨c :: cs, .locked⟩ _ hth
    simp only [Sys.fuel, Thread.fuel, Call.steps] at this ⊢
    omega
  · simp only at hph
    subst hph
    have := sum_map_set Thread.fuel s.threads t
      ⟨c :: cs, .inBank (Bank.body (BankMonitor.forward c))⟩ _ hth
    simp only [Sys.fuel, Thread.fuel, Call.steps] at this ⊢
    omega
  · simp only at hph
    subst hph
    have := sum_map_set Thread.fuel s.threads t ⟨c :: cs, .inBank rest⟩ _ hth
    simp only [Sys.fuel, Thread.fuel, List.length_cons] at this ⊢
    omega
  · simp only at hph
    subst hph
    have := sum_map_set Thread.fuel s.threads t ⟨cs, .idle⟩ _ hth
    have hcs : Thread.fuel ⟨cs, .idle⟩ = progSteps cs := by
      cases cs with
      | nil => simp [Thread.fuel, progSteps]
      | cons d ds => simp [Thread.fuel, progSteps]
    rw [hcs] at this
    simp only [Sys.fuel, Thread.fuel, List.length_nil] at this ⊢
    omega

theorem Sys.fuel_of_run {sched : List Tid} {s s1 : Sys} (h : Sys.run sched s = some s1) :
    sched.length + s1.fuel = s.fuel := by
  induction sched generalizing s with
  | nil =>
    simp only [Sys.run, Option.some.injEq] at h
    subst h
    simp
  | cons t ts ih =>
    simp only [Sys.run] at h
    cases hst : Sys.step t s with
    | none => simp [hst] at h
    | some s2 =>
      rw [hst] at h
      have h1 := ih h
      have h2 := Sys.fuel_drops hst
      simp only [List.length_cons]
      omega

/-- No deadlock: while some thread has not returned from its last call, some thread can
step. -/
theorem Sys.no_deadlock {progs : List (List Call)} {s : Sys} {lin : List (Tid × Call)}
    (hs : s.Safe) (hl : s.Lin progs lin) (hfin : ¬ s.finished) :
    ∃ t s1, Sys.step t s = some s1 := by
  cases hm : s.mtx with
  | some t =>
    obtain ⟨th, c, cs, _, _, hth, hprog, _, _, hphase⟩ := hl.busy t hm
    rcases th with ⟨prog, phase⟩
    simp only at hprog
    subst hprog
    refine ⟨t, ?_⟩
    rcases hphase with ⟨hph, _⟩ | ⟨rest, hph, _⟩
    · simp only at hph
      subst hph
      simp [Sys.step, hth]
    · simp only at hph
      subst hph
      cases rest <;> simp [Sys.step, hth]
  | none =>
    unfold Sys.finished at hfin
    push_neg at hfin
    obtain ⟨th, hmem, hne⟩ := hfin
    obtain ⟨t, hth⟩ := List.getElem?_of_mem hmem
    have hidle : th.phase = .idle := by
      by_contra hph
      have := hs.own t th hth hph
      rw [hm] at this
      cases this
    rcases th with ⟨prog, phase⟩
    simp only at hidle
    subst hidle
    cases prog with
    | nil => exact absurd rfl (hne rfl)
    | cons c cs =>
      refine ⟨t, ?_⟩
      simp [Sys.step, hth, hm]

/-- C4: threads make their calls on one `BankMonitor` concurrently.  When all have
returned, the console holds what a serial execution prints: there is an order of all the
calls, keeping the order of each thread, such that making the calls one at a time in that
order, from an unlocked monitor and an empty console, ends with the same console.  And
all do return: while one has not, some thread can step, and every step uses up one of the
finitely many steps of the calls. -/
theorem BankMonitor.serializable (progs : List (List Call)) (sched : List Tid) (s : Sys)
    (h : Sys.run sched (Sys.init progs) = some s) :
    (s.finished →
      ∃ order : List (Tid × Call),
        (∀ t, callsOf t order = progs.getD t []) ∧
        serialRun Bank.ops order { mtx := none, cout := [] }
          = some { mtx := none, cout := s.cout }) ∧
    (¬ s.finished → ∃ t s1, Sys.step t s = some s1) ∧
    sched.length + s.fuel = (Sys.init progs).fuel := by
  have hs : s.Safe := Sys.safe_run (Sys.safe_init progs) h
  obtain ⟨lin, hl⟩ := Sys.lin_run (Sys.safe_init progs) (Sys.lin_init progs) h
  refine ⟨?_, Sys.no_deadlock hs hl, Sys.fuel_of_run h⟩
  intro hfin
  have hidle : ∀ (t : Tid) (th : Thread), s.threads[t]? = some th →
      th.prog = [] ∧ th.phase = .idle := by
    intro t th hth
    exact hfin th (List.getElem?_mem hth)
  have hfree : s.mtx = none := by
    cases hm : s.mtx with
    | none => rfl
    | some t =>
      obtain ⟨th, c, cs, _, _, hth, hprog, _⟩ := hl.busy t hm
      rw [(hidle t th hth).1] at hprog
      cases hprog
  refine ⟨lin, ?_, ?_⟩
  · intro t
    have ho := hl.order t
    have hp : pendingAt s.threads t = [] := by
      unfold pendingAt
      cases hth : s.threads[t]? with
      | none => rfl
      | some th =>
        obtain ⟨h1, h2⟩ := hidle t th hth
        simp [Thread.pending, h1, h2]
    rw [hp, List.append_nil] at ho
    exact ho
  · rw [serialRun_bank, hl.free hfree]
    simp

theorem BankMonitor.serializable_witness :
    Sys.run [0, 0, 0, 0, 0, 0, 0, 0, 1, 1, 1, 1, 1, 1, 0, 0, 0, 0, 0, 0, 0, 0]
        (Sys.init [[.debit "Peter" 1000, .credit "Paul" 1000], [.print "Peter"]])
      = some demoEnd ∧
    demoEnd.finished ∧
    ((demoEnd.finished →
      ∃ order : List (Tid × Call),
        (∀ t, callsOf t order
          = [[Call.debit "Peter" 1000, Call.credit "Paul" 1000],
              [Call.print "Peter"]].getD t []) ∧
        serialRun Bank.ops order { mtx := none, cout := [] }
          = some { mtx := none, cout := demoEnd.cout }) ∧
    (¬ demoEnd.finished → ∃ t s1, Sys.step t demoEnd = some s1) ∧
    [0, 0, 0, 0, 0, 0, 0, 0, 1, 1, 1, 1, 1, 1, 0, 0, 0, 0, 0, 0, 0, 0].length + demoEnd.fuel
      = (Sys.init [[.debit "Peter" 1000, .credit "Paul" 1000], [.print "Peter"]]).fuel) :=
  ⟨by decide, by decide,
    BankMonitor.serializable [[.debit "Peter" 1000, .credit "Paul" 1000], [.print "Peter"]]
      [0, 0, 0, 0, 0, 0, 0, 0, 1, 1, 1, 1, 1, 1, 0, 0, 0, 0, 0, 0, 0, 0] demoEnd
      (by decide)⟩

/-! ### A call that is not interrupted -/

theorem Sys.run_append (a b : List Tid) (s : Sys) :
    Sys.run (a ++ b) s = (Sys.run a s).bind (Sys.run b) := by
  induction a generalizing s with
  | nil => simp [Sys.run]
  | cons t ts ih =>
    simp only [List.cons_append, Sys.run]
    cases Sys.step t s with
    | none => simp
    | some s1 => simp [ih]

theorem lt_length_of_getElem? {α : Type} {l : List α} {i : Nat} {a : α}
    (h : l[i]? = some a) : i < l.length := by
  by_contra hn
  rw [List.getElem?_eq_none (Nat.le_of_not_lt hn)] at h
  cases h

/-- From inside the `Bank` member function, the remaining insertions and the return. -/
theorem Sys.run_insertions (t : Tid) (c : Call) (cs : List Call) (rest : List Tok) (s : Sys)
    (hth : s.threads[t]? = some { prog := c :: cs, phase := .inBank rest }) :
    Sys.run (List.replicate (rest.length + 1) t) s
      = some { mtx := none, cout := s.cout ++ rest,
               threads := s.threads.set t { prog := cs, phase := .idle },
               trace := s.trace ++ [.release t] } := by
  induction rest generalizing s with
  | nil =>
    simp [Sys.run, Sys.step, hth]
  | cons tok rest ih =>
    have hlt := lt_length_of_getElem? hth
    have hstep : Sys.step t s = some
        { s with
          cout := s.cout ++ [tok]
          threads := s.threads.set t { prog := c :: cs, phase := .inBank rest } } := by
      simp [Sys.step, hth]
    rw [show (tok :: rest).length + 1 = (rest.length + 1) + 1 from rfl, List.replicate_succ,
      Sys.run, hstep, Option.some_bind, ih]
    · simp [List.set_set]
    · simp [List.getElem?_set, hlt]

/-- A thread that is before a call, with the mutex unlocked, and is scheduled alone for
the steps of that call: the call prints its whole body and returns, the mutex is unlocked
again, and the other threads have not moved. -/
theorem Sys.run_call (t : Tid) (c : Call) (cs : List Call) (s : Sys)
    (hth : s.threads[t]? = some { prog := c :: cs, phase := .idle }) (hm : s.mtx = none) :
    Sys.run (List.replicate c.steps t) s
      = some { mtx := none, cout := s.cout ++ Bank.body (BankMonitor.forward c),
               threads := s.threads.set t { prog := cs, phase := .idle },
               trace := s.trace ++ [.acquire t, .bankCall t (BankMonitor.forward c),
                                    .release t] } := by
  have hlt := lt_length_of_getElem? hth
  have h1 : Sys.step t s = some
      { s with
        mtx := some t
        threads := s.threads.set t { prog := c :: cs, phase := .locked }
        trace := s.trace ++ [.acquire t] } := by
    simp [Sys.step, hth, hm]
  have h2 : Sys.step t
      { s with
        mtx := some t
        threads := s.threads.set t { prog := c :: cs, phase := .locked }
        trace := s.trace ++ [.acquire t] }
      = some
        { mtx := some t
          cout := s.cout
          threads := s.threads.set t
            { prog := c :: cs, phase := .inBank (Bank.body (BankMonitor.forward c)) }
          trace := s.trace ++ [.acquire t] ++ [.bankCall t (BankMonitor.forward c)] } := by
    simp [Sys.step, List.getElem?_set, hlt, List.set_set]
  rw [show c.steps = ((Bank.body (BankMonitor.forward c)).length + 1) + 1 + 1 from rfl,
    List.replicate_succ, List.replicate_succ, Sys.run, h1, Option.some_bind, Sys.run, h2,
    Option.some_bind, Sys.run_insertions t c cs]
  · simp [List.set_set]
  · simp [List.getElem?_set, hlt]

/-- The interleaving model agrees with the member functions: a call scheduled alone does
to the mutex and the console what the member function does on the `Bank` of the source. -/
theorem Sys.run_call_agrees (t : Tid) (c : Call) (cs : List Call) (s : Sys)
    (hth : s.threads[t]? = some { prog := c :: cs, phase := .idle }) (hm : s.mtx = none) :
    ∃ s1, Sys.run (List.replicate c.steps t) s = some s1 ∧
      BankMonitor.call Bank.ops t c { mtx := s.mtx, cout := s.cout }
        = some (.ok (), { mtx := s1.mtx, cout := s1.cout }) := by
  refine ⟨_, Sys.run_call t c cs s hth hm, ?_⟩
  rw [BankMonitor.call_unlocked Bank.ops t c _ hm]
  simp [Bank.ops_call]

/-- C9: a thread that calls `debit` and then `credit` on a `BankMonitor` leaves the mutex
unlocked after `debit` has returned, and there is an execution in which the call `c` of a
second thread on the same `BankMonitor` runs between the two: it acquires the mutex after
the release that ends `debit` and releases it before the acquire that starts `credit`,
and what it prints stands between what the two calls of the first thread print. -/
theorem BankMonitor.calls_can_be_separated (name1 : String) (amount1 : Int) (name2 : String)
    (amount2 : Int) (rest : List Call) (c : Call) :
    ∃ s1 s2 s3 : Sys,
      Sys.run (List.replicate (Call.debit name1 amount1).steps 0)
          (Sys.init [.debit name1 amount1 :: .credit name2 amount2 :: rest, [c]]) = some s1 ∧
      s1.mtx = none ∧
      s1.threads[0]? = some { prog := .credit name2 amount2 :: rest, phase := .idle } ∧
      Sys.run (List.replicate c.steps 1) s1 = some s2 ∧
      Sys.run (List.replicate (Call.credit name2 amount2).steps 0) s2 = some s3 ∧
      s3.cout = Bank.body (BankMonitor.forward (.debit name1 amount1))
        ++ Bank.body (BankMonitor.forward c)
        ++ Bank.body (BankMonitor.forward (.credit name2 amount2)) ∧
      s3.trace = [.acquire 0, .bankCall 0 (BankMonitor.forward (.debit name1 amount1)),
                  .release 0,
                  .acquire 1, .bankCall 1 (BankMonitor.forward c), .release 1,
                  .acquire 0, .bankCall 0 (BankMonitor.forward (.credit name2 amount2)),
                  .release 0] := by
  have r1 := Sys.run_call 0 (.debit name1 amount1) (.credit name2 amount2 :: rest)
    (Sys.init [.debit name1 amount1 :: .credit name2 amount2 :: rest, [c]]) rfl rfl
  have r2 := Sys.run_call 1 c []
    { mtx := none,
      cout := [] ++ Bank.body (BankMonitor.forward (.debit name1 amount1)),
      threads := [{ prog := .credit name2 amount2 :: rest, phase := .idle },
                  { prog := [c], phase := .idle }],
      trace := [] ++ [.acquire 0, .bankCall 0 (BankMonitor.forward (.debit name1 amount1)),
                      .release 0] } rfl rfl
  have r3 := Sys.run_call 0 (.credit name2 amount2) rest
    { mtx := none,
      cout := [] ++ Bank.body (BankMonitor.forward (.debit name1 amount1))
        ++ Bank.body (BankMonitor.forward c),
      threads := [{ prog := .credit name2 amount2 :: rest, phase := .idle },
                  { prog := [], phase := .idle }],
      trace := [] ++ [.acquire 0, .bankCall 0 (BankMonitor.forward (.debit name1 amount1)),
                      .release 0]
        ++ [.acquire 1, .bankCall 1 (BankMonitor.forward c), .release 1] } rfl rfl
  exact ⟨_, _, _, r1, rfl, rfl, r2, r3, rfl, rfl⟩

/-! ## Theorems: `future_promise_threads/main.cpp` -/

theorem produce_code_eq : produce_code = none := rfl

theorem Pair.inv_init (code : Option Err) : (Pair.init Channel.fresh).Inv code :=
  ⟨rfl, ⟨rfl, rfl⟩⟩

theorem Pair.inv_stepProducer {code : Option Err} {s s1 : Pair} (hs : s.Inv code)
    (h : Pair.stepProducer code s = some s1) : s1.Inv code := by
  obtain ⟨hp, hc⟩ := hs
  rcases s with ⟨chan, cout, ppc, cpc, got⟩
  rcases chan with ⟨st, consumed⟩
  cases ppc with
  | entry =>
    cases code with
    | none =>
      simp only [Pair.stepProducer, Option.some.injEq] at h
      subst h
      exact ⟨⟨rfl, hp⟩, hc⟩
    | some e =>
      simp only [Pair.stepProducer, Option.some.injEq] at h
      subst h
      exact ⟨⟨rfl, hp⟩, hc⟩
  | printing rest =>
    cases rest with
    | nil =>
      simp only at hp
      obtain ⟨hcode, hst⟩ := hp
      subst hst
      simp only [Pair.stepProducer, Channel.setValue, Option.some.injEq] at h
      subst h
      subst hcode
      refine ⟨rfl, ?_⟩
      cases cpc <;> simp_all [expectedState]
    | cons tok rest =>
      simp only [Pair.stepProducer, Option.some.injEq] at h
      subst h
      exact ⟨hp, hc⟩
  | handler e =>
    simp only at hp
    obtain ⟨hcode, hst⟩ := hp
    subst hst
    simp only [Pair.stepProducer, Channel.setError, Option.some.injEq] at h
    subst h
    subst hcode
    refine ⟨rfl, ?_⟩
    cases cpc <;> simp_all [expectedState]
  | returned => simp [Pair.stepProducer] at h
  | escaped e => simp [Pair.stepProducer] at h

theorem Pair.inv_stepConsumer {code : Option Err} {s s1 : Pair} (hs : s.Inv code)
    (h : Pair.stepConsumer s = some s1) : s1.Inv code := by
  obtain ⟨hp, hc⟩ := hs
  rcases s with ⟨chan, cout, ppc, cpc, got⟩
  rcases chan with ⟨st, consumed⟩
  cases cpc with
  | announcing rest =>
    simp only at hc
    obtain ⟨hgot, hcons⟩ := hc
    subst hgot
    subst hcons
    cases rest with
    | cons tok rest =>
      simp only [Pair.stepConsumer, Option.some.injEq] at h
      subst h
      exact ⟨hp, ⟨rfl, rfl⟩⟩
    | nil =>
      cases st with
      | empty => simp [Pair.stepConsumer, Channel.get] at h
      | ready v =>
        simp only [Pair.stepConsumer, Channel.get, Bool.false_eq_true, if_false,
          Option.some.injEq] at h
        subst h
        cases ppc with
        | entry => simp at hp
        | printing r => simp at hp
        | handler e => simp at hp
        | returned =>
          simp only at hp
          cases code with
          | none =>
            simp only [expectedState, ChanState.ready.injEq] at hp
            subst hp
            exact ⟨rfl, ⟨rfl, rfl, rfl⟩⟩
          | some e => simp [expectedState] at hp
        | escaped e => simp at hp
      | failed e =>
        cases ppc with
        | entry => simp at hp
        | printing r => simp at hp
        | handler e => simp at hp
        | escaped e => simp at hp
        | returned =>
          simp only at hp
          cases code with
          | none => simp [expectedState] at hp
          | some e1 =>
            simp only [expectedState, ChanState.failed.injEq] at hp
            subst hp
            simp only [Pair.stepConsumer, Channel.get, Bool.false_eq_true, if_false] at h
            cases hw : e.what with
            | none =>
              simp only [hw, Option.some.injEq] at h
              subst h
              exact ⟨rfl, ⟨rfl, rfl, rfl, rfl, hw⟩⟩
            | some w =>
              simp only [hw, Option.some.injEq] at h
              subst h
              exact ⟨rfl, ⟨rfl, rfl, rfl⟩⟩
  | reporting rest =>
    cases rest with
    | nil =>
      simp only [Pair.stepConsumer, Option.some.injEq] at h
      subst h
      exact ⟨hp, hc⟩
    | cons tok rest =>
      simp only [Pair.stepConsumer, Option.some.injEq] at h
      subst h
      exact ⟨hp, hc⟩
  | returned => simp [Pair.stepConsumer] at h
  | escaped e => simp [Pair.stepConsumer] at h

theorem Pair.inv_step {code : Option Err} {r : Role} {s s1 : Pair} (hs : s.Inv code)
    (h : Pair.step code r s = some s1) : s1.Inv code := by
  cases r with
  | producer => exact Pair.inv_stepProducer hs h
  | consumer => exact Pair.inv_stepConsumer hs h

theorem Pair.inv_run {code : Option Err} {sched : List Role} {s s1 : Pair} (hs : s.Inv code)
    (h : Pair.run code sched s = some s1) : s1.Inv code := by
  induction sched generalizing s with
  | nil =>
    simp only [Pair.run, Option.some.injEq] at h
    exact h ▸ hs
  | cons r rs ih =>
    simp only [Pair.run] at h
    cases hst : Pair.step code r s with
    | none => simp [hst] at h
    | some s2 =>
      rw [hst] at h
      exact ih (Pair.inv_step hs hst) h

theorem Pair.fuel_step {code : Option Err} {r : Role} {s s1 : Pair}
    (h : Pair.step code r s = some s1) : s1.fuel < s.fuel := by
  rcases s with ⟨chan, cout, ppc, cpc, got⟩
  cases r with
  | producer =>
    simp only [Pair.step, Pair.stepProducer] at h
    cases ppc with
    | entry =>
      cases code <;>
        · simp only [Option.some.injEq] at h
          subst h
          simp [Pair.fuel, ProducerPc.fuel, produce_message]
    | printing rest =>
      cases rest with
      | nil =>
        simp only at h
        rcases hv : Channel.setValue 42 chan with ⟨res, c⟩
        rw [hv] at h
        cases res with
        | ok u =>
          simp only [Option.some.injEq] at h
          subst h
          simp [Pair.fuel, ProducerPc.fuel]
        | error e =>
          simp only [Option.some.injEq] at h
          subst h
          simp [Pair.fuel, ProducerPc.fuel]
      | cons tok rest =>
        simp only [Option.some.injEq] at h
        subst h
        simp [Pair.fuel, ProducerPc.fuel]
    | handler e =>
      simp only at h
      rcases hv : Channel.setError e chan with ⟨res, c⟩
      rw [hv] at h
      cases res with
      | ok u =>
        simp only [Option.some.injEq] at h
        subst h
        simp [Pair.fuel, ProducerPc.fuel]
      | error e =>
        simp only [Option.some.injEq] at h
        subst h
        simp [Pair.fuel, ProducerPc.fuel]
    | returned => simp at h
    | escaped e => simp at h
  | consumer =>
    simp only [Pair.step, Pair.stepConsumer] at h
    cases cpc with
    | announcing rest =>
      cases rest with
      | cons tok rest =>
        simp only [Option.some.injEq] at h
        subst h
        simp [Pair.fuel, ConsumerPc.fuel]
      | nil =>
        simp only at h
        cases hg : Channel.get chan with
        | none => simp [hg] at h
        | some p =>
          rcases p with ⟨res, c⟩
          rw [hg] at h
          cases res with
          | ok x =>
            simp only [Option.some.injEq] at h
            subst h
            simp [Pair.fuel, ConsumerPc.fuel, consume_answer]
          | error e =>
            simp only at h
            cases hw : e.what with
            | none =>
              simp only [hw, Option.some.injEq] at h
              subst h
              simp [Pair.fuel, ConsumerPc.fuel]
            | some w =>
              simp only [hw, Option.some.injEq] at h
              subst h
              simp [Pair.fuel, ConsumerPc.fuel, consume_caught]
    | reporting rest =>
      cases rest with
      | nil =>
        simp only [Option.some.injEq] at h
        subst h
        simp [Pair.fuel, ConsumerPc.fuel]
      | cons tok rest =>
        simp only [Option.some.injEq] at h
        subst h
        simp [Pair.fuel, ConsumerPc.fuel]
    | returned => simp at h
    | escaped e => simp at h

/-- Every schedule is short: its length and what is left of the bound make up at most the
bound of the start. -/
theorem Pair.fuel_run {code : Option Err} {sched : List Role} {s s1 : Pair}
    (h : Pair.run code sched s = some s1) : sched.length + s1.fuel ≤ s.fuel := by
  induction sched generalizing s with
  | nil =>
    simp only [Pair.run, Option.some.injEq] at h
    subst h
    simp
  | cons r rs ih =>
    simp only [Pair.run] at h
    cases hst : Pair.step code r s with
    | none => simp [hst] at h
    | some s2 =>
      rw [hst] at h
      have h1 := ih h
      have h2 := Pair.fuel_step hst
      simp only [List.length_cons]
      omega

/-- No deadlock: while a task function is not over, one of the two threads can step. -/
theorem Pair.progress {code : Option Err} {s : Pair} (hs : s.Inv code)
    (hd : s.done = false) : ∃ r s1, Pair.step code r s = some s1 := by
  obtain ⟨hp, hc⟩ := hs
  rcases s with ⟨chan, cout, ppc, cpc, got⟩
  rcases chan with ⟨st, consumed⟩
  cases ppc with
  | entry =>
    cases code with
    | none => exact ⟨.producer, _, rfl⟩
    | some e => exact ⟨.producer, _, rfl⟩
  | printing rest =>
    cases rest with
    | nil =>
      simp only at hp
      obtain ⟨_, hst⟩ := hp
      subst hst
      exact ⟨.producer, _, rfl⟩
    | cons tok rest => exact ⟨.producer, _, rfl⟩
  | handler e =>
    simp only at hp
    obtain ⟨_, hst⟩ := hp
    subst hst
    exact ⟨.producer, _, rfl⟩
  | escaped e => exact absurd hp id
  | returned =>
    simp only at hp
    cases cpc with
    | announcing rest =>
      cases rest with
      | cons tok rest => exact ⟨.consumer, _, rfl⟩
      | nil =>
        simp only at hc
        obtain ⟨_, hcons⟩ := hc
        subst hcons
        subst hp
        cases code with
        | none => exact ⟨.consumer, _, rfl⟩
        | some e =>
          cases hw : e.what with
          | none =>
            refine ⟨.consumer, ?_⟩
            simp [Pair.step, Pair.stepConsumer, Channel.get, expectedState, hw]
          | some w =>
            refine ⟨.consumer, ?_⟩
            simp [Pair.step, Pair.stepConsumer, Channel.get, expectedState, hw]
    | reporting rest =>
      cases rest with
      | nil => exact ⟨.consumer, _, rfl⟩
      | cons tok rest => exact ⟨.consumer, _, rfl⟩
    | returned => simp [Pair.done] at hd
    | escaped e => simp [Pair.done] at hd

/-- The interleaving model agrees with `produceWith`: the producer thread scheduled
alone from the start of its task function ends with the channel and the console that
`produceWith` gives, returned or left by the same exception. -/
theorem Pair.run_producer_alone (code : Option Err) (s : Pair) (hs : s.ppc = .entry) :
    ∃ n s1, Pair.run code (List.replicate n .producer) s = some s1 ∧
      s1.chan = (produceWith code s.chan s.cout).2.1 ∧
      s1.cout = (produceWith code s.chan s.cout).2.2 ∧
      s1.ppc = (match (produceWith code s.chan s.cout).1 with
        | .ok _ => ProducerPc.returned
        | .error e => ProducerPc.escaped e) ∧
      s1.cpc = s.cpc ∧ s1.got = s.got := by
  rcases s with ⟨chan, cout, ppc, cpc, got⟩
  rcases chan with ⟨st, consumed⟩
  simp only at hs
  subst hs
  cases code with
  | none =>
    cases st with
    | empty =>
      refine ⟨5, _, rfl, ?_⟩
      simp [produceWith, produceTry, Channel.setValue, produce_message]
    | ready v =>
      refine ⟨6, _, rfl, ?_⟩
      simp [produceWith, produceTry, Channel.setValue, Channel.setError, produce_message]
    | failed e =>
      refine ⟨6, _, rfl, ?_⟩
      simp [produceWith, produceTry, Channel.setValue, Channel.setError, produce_message]
  | some e =>
    cases st with
    | empty =>
      refine ⟨2, _, rfl, ?_⟩
      simp [produceWith, produceTry, Channel.setError]
    | ready v =>
      refine ⟨2, _, rfl, ?_⟩
      simp [produceWith, produceTry, Channel.setError]
    | failed e1 =>
      refine ⟨2, _, rfl, ?_⟩
      simp [produceWith, produceTry, Channel.setError]

/-- The interleaving model agrees with `consume`: when `consume` comes back, the consumer
thread scheduled alone from the start of its task function ends with the channel and the
console that `consume` gives, returned or left by the same exception. -/
theorem Pair.run_consumer_alone (code : Option Err) (s : Pair)
    (hs : s.cpc = .announcing consume_announce) (r : Except Err Unit) (c1 : Channel)
    (out1 : Cout) (h : consume s.chan s.cout = some (r, c1, out1)) :
    ∃ n s1, Pair.run code (List.replicate n .consumer) s = some s1 ∧
      s1.chan = c1 ∧ s1.cout = out1 ∧
      s1.cpc = (match r with
        | .ok _ => ConsumerPc.returned
        | .error e => ConsumerPc.escaped e) ∧
      s1.ppc = s.ppc := by
  rcases s with ⟨chan, cout, ppc, cpc, got⟩
  rcases chan with ⟨st, consumed⟩
  simp only at hs
  subst hs
  cases st with
  | empty => simp [consume, Channel.get] at h
  | ready v =>
    cases consumed with
    | false =>
      simp only [consume, Channel.get, Bool.false_eq_true, if_false, Option.some.injEq,
        Prod.mk.injEq] at h
      obtain ⟨h1, h2, h3⟩ := h
      subst h1 h2 h3
      refine ⟨9, _, rfl, rfl, ?_, rfl, rfl⟩
      simp [consume_announce, consume_answer]
    | true =>
      simp only [consume, Channel.get, if_true, Err.what, Option.some.injEq,
        Prod.mk.injEq] at h
      obtain ⟨h1, h2, h3⟩ := h
      subst h1 h2 h3
      refine ⟨7, _, rfl, rfl, ?_, rfl, rfl⟩
      simp [consume_announce, consume_caught]
  | failed e =>
    cases consumed with
    | true =>
      simp only [consume, Channel.get, if_true, Err.what, Option.some.injEq,
        Prod.mk.injEq] at h
      obtain ⟨h1, h2, h3⟩ := h
      subst h1 h2 h3
      refine ⟨7, _, rfl, rfl, ?_, rfl, rfl⟩
      simp [consume_announce, consume_caught]
    | false =>
      simp only [consume, Channel.get, Bool.false_eq_true, if_false] at h
      cases hw : e.what with
      | none =>
        simp only [hw, Option.some.injEq, Prod.mk.injEq] at h
        obtain ⟨h1, h2, h3⟩ := h
        subst h1 h2 h3
        refine ⟨3, { chan := { state := .failed e, consumed := true },
                     cout := cout ++ consume_announce, ppc := ppc, cpc := .escaped e,
                     got := some (.error e) }, ?_, rfl, rfl, rfl, rfl⟩
        simp [Pair.run, Pair.step, Pair.stepConsumer, consume_announce, Channel.get, hw,
          List.replicate]
      | some w =>
        simp only [hw, Option.some.injEq, Prod.mk.injEq] at h
        obtain ⟨h1, h2, h3⟩ := h
        subst h1 h2 h3
        refine ⟨7, { chan := { state := .failed e, consumed := true },
                     cout := cout ++ consume_announce ++ consume_caught w, ppc := ppc,
                     cpc := .returned, got := some (.error e) }, ?_, rfl, rfl, rfl, rfl⟩
        simp [Pair.run, Pair.step, Pair.stepConsumer, consume_announce, Channel.get, hw,
          List.replicate, consume_caught]

/-- C5: on a fresh promise/future pair, in every execution of `thr_producer` running
`produce` and `thr_consumer` running `consume`: `fx.get()` has come back only with the
value 42, and only with the channel `Ready(42)`, never while it is `Empty`; the channel
is `Empty` or `Ready(42)`, never `Failed`, and `Ready(42)` once `produce` has returned;
no exception leaves either function; as long as one of them is not over some thread can
step, and no execution has more than 15 steps, so the threads do finish, and then `x` is
42.  Taken alone, `produce` turns the fresh channel into `Ready(42)`, `consume` after it
prints the answer 42, and on an `Empty` channel `get` and `consume` do not return. -/
theorem produce_consume_transfers_42 (sched : List Role) (s : Pair)
    (h : Pair.run produce_code sched (Pair.init Channel.fresh) = some s) :
    (∀ r, s.got = some r → r = .ok 42 ∧ s.chan.state = .ready 42) ∧
    (s.chan.state = .empty ∨ s.chan.state = .ready 42) ∧
    (s.ppc = .returned → s.chan.state = .ready 42) ∧
    (∀ e, s.ppc ≠ .escaped e ∧ s.cpc ≠ .escaped e) ∧
    (s.done = false → ∃ r s1, Pair.step produce_code r s = some s1) ∧
    sched.length + s.fuel ≤ 15 ∧
    (s.done = true → s.got = some (.ok 42) ∧ s.chan.state = .ready 42) ∧
    (∀ (c : Channel) (out : Cout), c.state = .empty → c.get = none ∧ consume c out = none) ∧
    produce Channel.fresh [] = (.ok (), { state := .ready 42, consumed := false },
      produce_message 42) ∧
    consume (produce Channel.fresh []).2.1 (produce Channel.fresh []).2.2
      = some (.ok (), { state := .ready 42, consumed := true },
          produce_message 42 ++ consume_announce ++ consume_answer 42) := by
  have hinv : s.Inv none := Pair.inv_run (Pair.inv_init none) h
  have hfuel := Pair.fuel_run h
  obtain ⟨hp, hc⟩ := hinv
  have hgot : ∀ r, s.got = some r → r = .ok 42 ∧ s.chan.state = .ready 42 := by
    intro r hr
    rcases s with ⟨chan, cout, ppc, cpc, got⟩
    cases cpc <;> simp_all [expectedGot, expectedState]
  have hstate : s.chan.state = .empty ∨ s.chan.state = .ready 42 := by
    rcases s with ⟨chan, cout, ppc, cpc, got⟩
    cases ppc <;> simp_all [expectedState]
  refine ⟨hgot, hstate, ?_, ?_, ?_, hfuel, ?_, ?_, rfl, rfl⟩
  · intro hret
    rcases s with ⟨chan, cout, ppc, cpc, got⟩
    simp only at hret
    subst hret
    exact hp
  · intro e
    constructor
    · intro he
      rcases s with ⟨chan, cout, ppc, cpc, got⟩
      simp only at he
      subst he
      exact hp
    · intro he
      rcases s with ⟨chan, cout, ppc, cpc, got⟩
      simp only at he
      subst he
      simp at hc
  · intro hd
    exact Pair.progress ⟨hp, hc⟩ hd
  · intro hd
    rcases s with ⟨chan, cout, ppc, cpc, got⟩
    cases cpc with
    | announcing rest => cases ppc <;> simp [Pair.done] at hd
    | reporting rest => cases ppc <;> simp [Pair.done] at hd
    | returned => exact ⟨hc.1, hc.2.1⟩
    | escaped e => simp at hc
  · intro c out hc
    have h1 : c.get = none := by simp [Channel.get, hc]
    exact ⟨h1, by simp [consume, h1]⟩

theorem produce_consume_transfers_42_witness :
    Pair.run produce_code
        [.consumer, .consumer, .producer, .producer, .producer, .producer, .producer,
         .consumer, .consumer, .consumer, .consumer, .consumer, .consumer, .consumer]
        (Pair.init Channel.fresh) = some demoPairEnd ∧
    ((∀ r, demoPairEnd.got = some r → r = .ok 42 ∧ demoPairEnd.chan.state = .ready 42) ∧
    (demoPairEnd.chan.state = .empty ∨ demoPairEnd.chan.state = .ready 42) ∧
    (demoPairEnd.ppc = .returned → demoPairEnd.chan.state = .ready 42) ∧
    (∀ e, demoPairEnd.ppc ≠ .escaped e ∧ demoPairEnd.cpc ≠ .escaped e) ∧
    (demoPairEnd.done = false → ∃ r s1, Pair.step produce_code r demoPairEnd = some s1) ∧
    [Role.consumer, .consumer, .producer, .producer, .producer, .producer, .producer,
      .consumer, .consumer, .consumer, .consumer, .consumer, .consumer, .consumer].length
      + demoPairEnd.fuel ≤ 15 ∧
    (demoPairEnd.done = true →
      demoPairEnd.got = some (.ok 42) ∧ demoPairEnd.chan.state = .ready 42) ∧
    (∀ (c : Channel) (out : Cout), c.state = .empty → c.get = none ∧ consume c out = none) ∧
    produce Channel.fresh [] = (.ok (), { state := .ready 42, consumed := false },
      produce_message 42) ∧
    consume (produce Channel.fresh []).2.1 (produce Channel.fresh []).2.2
      = some (.ok (), { state := .ready 42, consumed := true },
          produce_message 42 ++ consume_announce ++ consume_answer 42)) :=
  ⟨by decide, produce_consume_transfers_42 _ demoPairEnd (by decide)⟩

/-! ### Single assignment -/

theorem Channel.setValue_terminal (v : Int) (c : Channel) (h : c.state.terminal = true) :
    c.setValue v = (.error .alreadySettled, c) := by
  rcases c with ⟨st, consumed⟩
  cases st <;> simp_all [Channel.setValue, ChanState.terminal]

theorem Channel.setError_terminal (e : Err) (c : Channel) (h : c.state.terminal = true) :
    c.setError e = (.error .alreadySettled, c) := by
  rcases c with ⟨st, consumed⟩
  cases st <;> simp_all [Channel.setError, ChanState.terminal]

theorem produceWith_terminal (code : Option Err) (c : Channel) (out : Cout)
    (h : c.state.terminal = true) :
    (produceWith code c out).1 = .error .alreadySettled ∧ (produceWith code c out).2.1 = c := by
  cases code with
  | none =>
    simp [produceWith, produceTry, Channel.setValue_terminal _ c h,
      Channel.setError_terminal _ c h]
  | some e =>
    simp [produceWith, produceTry, Channel.setError_terminal _ c h]

/-- An operation changes the state of a channel only from `Empty` to a terminal state. -/
theorem ChanOp.apply_state (op : ChanOp) (d : Channel) :
    (op.apply d).state = d.state ∨
      (d.state = .empty ∧ (op.apply d).state.terminal = true) := by
  rcases d with ⟨st, consumed⟩
  cases op with
  | setValue v => cases st <;> simp [ChanOp.apply, Channel.setValue, ChanState.terminal]
  | setError e => cases st <;> simp [ChanOp.apply, Channel.setError, ChanState.terminal]
  | get =>
    cases st <;> cases consumed <;> simp [ChanOp.apply, Channel.get]
  | produce code =>
    cases st with
    | empty =>
      cases code <;>
        simp [ChanOp.apply, produceWith, produceTry, Channel.setValue, Channel.setError,
          ChanState.terminal]
    | ready v =>
      left
      have := (produceWith_terminal code ⟨.ready v, consumed⟩ [] rfl).2
      simp only [ChanOp.apply, this]
    | failed e =>
      left
      have := (produceWith_terminal code ⟨.failed e, consumed⟩ [] rfl).2
      simp only [ChanOp.apply, this]

theorem ChanOp.foldl_terminal (ops : List ChanOp) (c : Channel)
    (h : c.state.terminal = true) :
    (ops.foldl (fun ch op => op.apply ch) c).state = c.state := by
  induction ops generalizing c with
  | nil => rfl
  | cons op ops ih =>
    have h1 : (op.apply c).state = c.state := by
      rcases ChanOp.apply_state op c with h1 | ⟨h1, _⟩
      · exact h1
      · rw [h1] at h; cases h
    simp only [List.foldl_cons]
    rw [ih (op.apply c) (by rw [h1]; exact h), h1]

/-- C6: an operation changes the state of a channel only from `Empty` to `Ready` or
`Failed`; on a channel in a terminal state, `set_value` and `set_exception` fail with the
already-settled error and leave the channel as it is, so the `set_value` of `produce`
fails, its handler is entered, the `set_exception` there fails too, that error leaves
`produce`, and the channel is still as it was; after any sequence of operations the state
is still the same. -/
theorem channel_single_assignment (c : Channel) (h : c.state.terminal = true) :
    (∀ v, c.setValue v = (.error .alreadySettled, c)) ∧
    (∀ e, c.setError e = (.error .alreadySettled, c)) ∧
    (∀ out, produceTry produce_code c out
      = (.error .alreadySettled, c, out ++ produce_message 42)) ∧
    (∀ out, produce c out = (.error .alreadySettled, c, out ++ produce_message 42)) ∧
    (∀ code out, (produceWith code c out).1 = .error .alreadySettled ∧
      (produceWith code c out).2.1 = c) ∧
    (∀ ops : List ChanOp, (ops.foldl (fun ch op => op.apply ch) c).state = c.state) ∧
    (∀ (d : Channel) (op : ChanOp), (op.apply d).state = d.state ∨
      (d.state = .empty ∧ (op.apply d).state.terminal = true)) := by
  refine ⟨fun v => Channel.setValue_terminal v c h, fun e => Channel.setError_terminal e c h,
    ?_, ?_, fun code out => produceWith_terminal code c out h,
    fun ops => ChanOp.foldl_terminal ops c h, fun d op => ChanOp.apply_state op d⟩
  · intro out
    simp [produceTry, produce_code_eq, Channel.setValue_terminal _ c h]
  · intro out
    simp [produce, produceWith, produceTry, produce_code_eq, Channel.setValue_terminal _ c h,
      Channel.setError_terminal _ c h]

theorem channel_single_assignment_witness :
    settled7.state.terminal = true ∧
    ((∀ v, settled7.setValue v = (.error .alreadySettled, settled7)) ∧
    (∀ e, settled7.setError e = (.error .alreadySettled, settled7)) ∧
    (∀ out, produceTry produce_code settled7 out
      = (.error .alreadySettled, settled7, out ++ produce_message 42)) ∧
    (∀ out, produce settled7 out = (.error .alreadySettled, settled7, out ++ produce_message 42)) ∧
    (∀ code out, (produceWith code settled7 out).1 = .error .alreadySettled ∧
      (produceWith code settled7 out).2.1 = settled7) ∧
    (∀ ops : List ChanOp,
      (ops.foldl (fun ch op => op.apply ch) settled7).state = settled7.state) ∧
    (∀ (d : Channel) (op : ChanOp), (op.apply d).state = d.state ∨
      (d.state = .empty ∧ (op.apply d).state.terminal = true))) :=
  ⟨rfl, channel_single_assignment settled7 rfl⟩

/-! ### Exceptions through the channel -/

/-- C7 as stated fails on a settled channel.  With the channel `Ready(7)`, the try block
of `produce` is left by the already-settled error of `set_value`, yet the channel is
`Ready(7)` after `produce`, not `Failed` with that error, and `get` returns 7.  The same
holds for an exception thrown by the statement under "code that may throw". -/
theorem produce_error_not_stored_when_settled :
    (produceTry produce_code settled7 []).1 = .error .alreadySettled ∧
    (produce settled7 []).2.1.state = .ready 7 ∧
    (produce settled7 []).2.1.state ≠ .failed .alreadySettled ∧
    Channel.get (produce settled7 []).2.1
      = some (.ok 7, { state := .ready 7, consumed := true }) ∧
    (produceTry (some (.outOfRange "Oops")) settled7 []).1 = .error (.outOfRange "Oops") ∧
    (produceWith (some (.outOfRange "Oops")) settled7 []).2.1.state
      ≠ .failed (.outOfRange "Oops") ∧
    Channel.get (produceWith (some (.outOfRange "Oops")) settled7 []).2.1
      = some (.ok 7, { state := .ready 7, consumed := true }) := by
  decide

/-- C7, amended: on a channel that is `Empty`, its future not yet consumed, when the try
block of `produce` is left by an exception `e`, `produce` stores `e` with `set_exception`,
the channel becomes `Failed(e)` and `produce` returns; `get` on the future then raises `e`
itself and returns no value; `consume` prints `e.what()` when `e` is a `std::exception`
and lets `e` through otherwise.  In every execution of the two threads of `main` on a
fresh channel with the producer throwing `e`, `fx.get()` comes back only with `e`. -/
theorem produce_stores_error_when_empty (code : Option Err) (px : Channel) (out : Cout)
    (e : Err) (hpx : px.state = .empty) (hfut : px.consumed = false)
    (hraise : (produceTry code px out).1 = .error e) :
    produceWith code px out = (.ok (), { state := .failed e, consumed := false }, out) ∧
    Channel.get (produceWith code px out).2.1
      = some (.error e, { state := .failed e, consumed := true }) ∧
    (∀ v c, Channel.get (produceWith code px out).2.1 ≠ some (.ok v, c)) ∧
    (∀ w, e.what = some w → ∀ out1, consume (produceWith code px out).2.1 out1
      = some (.ok (), { state := .failed e, consumed := true },
          out1 ++ consume_announce ++ consume_caught w)) ∧
    (e.what = none → ∀ out1, consume (produceWith code px out).2.1 out1
      = some (.error e, { state := .failed e, consumed := true },
          out1 ++ consume_announce)) ∧
    (∀ sched s, Pair.run code sched (Pair.init Channel.fresh) = some s →
      (∀ r, s.got = some r → r = .error e) ∧
      (s.ppc = .returned → s.chan.state = .failed e)) := by
  rcases px with ⟨st, consumed⟩
  simp only at hpx hfut
  subst hpx hfut
  have hcode : code = some e := by
    cases code with
    | none => simp [produceTry, Channel.setValue] at hraise
    | some e1 =>
      simp only [produceTry, Except.error.injEq] at hraise
      rw [hraise]
  subst hcode
  have hprod : produceWith (some e) { state := .empty, consumed := false } out
      = (.ok (), { state := .failed e, consumed := false }, out) := by
    simp [produceWith, produceTry, Channel.setError]
  rw [hprod]
  refine ⟨rfl, by simp [Channel.get], ?_, ?_, ?_, ?_⟩
  · intro v c
    simp [Channel.get]
  · intro w hw out1
    simp [consume, Channel.get, hw]
  · intro hw out1
    simp [consume, Channel.get, hw]
  · intro sched s hrun
    obtain ⟨hp, hc⟩ := Pair.inv_run (Pair.inv_init (some e)) hrun
    rcases s with ⟨chan, cout, ppc, cpc, got⟩
    constructor
    · intro r hr
      cases cpc <;> simp_all [expectedGot]
    · intro hret
      simp only at hret
      subst hret
      exact hp

theorem produce_stores_error_when_empty_witness :
    Channel.fresh.state = .empty ∧ Channel.fresh.consumed = false ∧
    (produceTry (some (.outOfRange "Oops")) Channel.fresh []).1
      = .error (.outOfRange "Oops") ∧
    (produceWith (some (.outOfRange "Oops")) Channel.fresh []
      = (.ok (), { state := .failed (.outOfRange "Oops"), consumed := false }, []) ∧
    Channel.get (produceWith (some (.outOfRange "Oops")) Channel.fresh []).2.1
      = some (.error (.outOfRange "Oops"),
          { state := .failed (.outOfRange "Oops"), consumed := true }) ∧
    (∀ v c, Channel.get (produceWith (some (.outOfRange "Oops")) Channel.fresh []).2.1
      ≠ some (.ok v, c)) ∧
    (∀ w, (Err.outOfRange "Oops").what = some w → ∀ out1,
      consume (produceWith (some (.outOfRange "Oops")) Channel.fresh []).2.1 out1
        = some (.ok (), { state := .failed (.outOfRange "Oops"), consumed := true },
            out1 ++ consume_announce ++ consume_caught w)) ∧
    ((Err.outOfRange "Oops").what = none → ∀ out1,
      consume (produceWith (some (.outOfRange "Oops")) Channel.fresh []).2.1 out1
        = some (.error (.outOfRange "Oops"),
            { state := .failed (.outOfRange "Oops"), consumed := true },
            out1 ++ consume_announce)) ∧
    (∀ sched s,
      Pair.run (some (.outOfRange "Oops")) sched (Pair.init Channel.fresh) = some s →
      (∀ r, s.got = some r → r = .error (.outOfRange "Oops")) ∧
      (s.ppc = .returned → s.chan.state = .failed (.outOfRange "Oops")))) :=
  ⟨rfl, rfl, rfl, produce_stores_error_when_empty (some (.outOfRange "Oops")) Channel.fresh []
    (.outOfRange "Oops") rfl rfl rfl⟩

/-! ### A future is read once -/

/-- C8: when `get` on a single-consumer future has come back, with a value or with an
exception, a further `get` on it fails with the already-consumed error and leaves the
channel as it is; so `consume` run again on a future on which `consume` has run prints
that error and no answer. -/
theorem second_get_already_consumed (fx fx1 : Channel) (r1 : Except Err Int)
    (h : fx.get = some (r1, fx1)) :
    fx1.get = some (.error .alreadyConsumed, fx1) ∧
    (∀ v, fx1.get ≠ some (.ok v, fx1)) ∧
    (∀ out, consume fx1 out
      = some (.ok (), fx1, out ++ consume_announce ++ consume_caught "AlreadyConsumedError")) ∧
    (∀ out r fx2 out1, consume fx out = some (r, fx2, out1) →
      fx2 = fx1 ∧
      consume fx2 out1
        = some (.ok (), fx2,
            out1 ++ consume_announce ++ consume_caught "AlreadyConsumedError")) := by
  rcases fx with ⟨st, consumed⟩
  have hget : fx1.get = some (.error .alreadyConsumed, fx1) := by
    cases st <;> cases consumed <;> simp [Channel.get] at h <;>
      (obtain ⟨_, h2⟩ := h; subst h2; simp [Channel.get])
  have hcons : ∀ out, consume fx1 out
      = some (.ok (), fx1, out ++ consume_announce ++ consume_caught "AlreadyConsumedError") := by
    intro out
    simp [consume, hget, Err.what]
  refine ⟨hget, ?_, hcons, ?_⟩
  · intro v hv
    rw [hget] at hv
    simp at hv
  · intro out r fx2 out1 hc
    have h2 : fx2 = fx1 := by
      unfold consume at hc
      rw [h] at hc
      cases r1 with
      | ok x =>
        simp only [Option.some.injEq, Prod.mk.injEq] at hc
        exact hc.2.1.symm
      | error e =>
        simp only at hc
        cases hw : e.what with
        | none =>
          simp only [hw, Option.some.injEq, Prod.mk.injEq] at hc
          exact hc.2.1.symm
        | some w =>
          simp only [hw, Option.some.injEq, Prod.mk.injEq] at hc
          exact hc.2.1.symm
    subst h2
    exact ⟨rfl, hcons out1⟩

theorem second_get_already_consumed_witness :
    Channel.get { state := .failed (.outOfRange "Oops"), consumed := false }
      = some (.error (.outOfRange "Oops"),
          { state := .failed (.outOfRange "Oops"), consumed := true }) ∧
    (Channel.get { state := .failed (.outOfRange "Oops"), consumed := true }
      = some (.error .alreadyConsumed,
          { state := .failed (.outOfRange "Oops"), consumed := true }) ∧
    (∀ v, Channel.get { state := .failed (.outOfRange "Oops"), consumed := true }
      ≠ some (.ok v, { state := .failed (.outOfRange "Oops"), consumed := true })) ∧
    (∀ out, consume { state := .failed (.outOfRange "Oops"), consumed := true } out
      = some (.ok (), { state := .failed (.outOfRange "Oops"), consumed := true },
          out ++ consume_announce ++ consume_caught "AlreadyConsumedError")) ∧
    (∀ out r fx2 out1,
      consume { state := .failed (.outOfRange "Oops"), consumed := false } out
        = some (r, fx2, out1) →
      fx2 = { state := .failed (.outOfRange "Oops"), consumed := true } ∧
      consume fx2 out1
        = some (.ok (), fx2,
            out1 ++ consume_announce ++ consume_caught "AlreadyConsumedError"))) :=
  ⟨rfl, second_get_already_consumed
    { state := .failed (.outOfRange "Oops"), consumed := false }
    { state := .failed (.outOfRange "Oops"), consumed := true }
    (.error (.outOfRange "Oops")) rfl⟩

/-! ### The doubling pass -/

theorem wrapInt_of_fits {z : Int} (h : fitsInt z) : wrapInt z = z := by
  unfold fitsInt at h
  unfold wrapInt
  have h1 : (0 : Int) ≤ z + 2 ^ 31 := by omega
  have h2 : z + 2 ^ 31 < 2 ^ 32 := by omega
  rw [Int.emod_eq_of_lt h1 h2]
  omega

theorem for_each_from_getElem? (f : Int → Int) (n i : Nat) (v : List Int) (j : Nat) :
    (for_each_from f n i v)[j]? = if i ≤ j ∧ j < i + n then v[j]?.map f else v[j]? := by
  induction n generalizing i v with
  | zero =>
    have : ¬ (i ≤ j ∧ j < i + 0) := by omega
    rw [if_neg this]
    rfl
  | succ n ih =>
    unfold for_each_from
    cases hvi : v[i]? with
    | none =>
      simp only
      split
      · rename_i hj
        have hlen : v.length ≤ i := by
          by_contra hn
          have := List.getElem?_eq_getElem (Nat.lt_of_not_le hn)
          rw [this] at hvi
          cases hvi
        rw [List.getElem?_eq_none (by omega)]
        rfl
      · rfl
    | some x =>
      simp only
      have hlt : i < v.length := by
        by_contra hn
        rw [List.getElem?_eq_none (Nat.le_of_not_lt hn)] at hvi
        cases hvi
      rw [ih, List.getElem?_set]
      by_cases hij : i = j
      · subst hij
        have h1 : ¬ (i + 1 ≤ i ∧ i < i + 1 + n) := by omega
        have h2 : i ≤ i ∧ i < i + (n + 1) := by omega
        simp [h1, h2, hlt, hvi]
      · by_cases hc : i + 1 ≤ j ∧ j < i + 1 + n
        · have h2 : i ≤ j ∧ j < i + (n + 1) := by omega
          simp [hc, h2, hij]
        · have h2 : ¬ (i ≤ j ∧ j < i + (n + 1)) := by omega
          simp [hc, h2, hij]

theorem for_each_eq_map (v : List Int) (f : Int → Int) : for_each v f = v.map f := by
  apply List.ext_getElem?
  intro j
  rw [for_each, for_each_from_getElem?, List.getElem?_map]
  by_cases hj : j < v.length
  · simp [hj]
  · have : ¬ (0 ≤ j ∧ j < 0 + v.length) := by omega
    rw [if_neg this, List.getElem?_eq_none (by omega)]
    rfl

/-- C10: on a vector of `int` whose doubles are values of `int`, the doubling pass of
`main` gives the vector of the doubles: same length, same order, position by position
twice the element that was there; `{1,2,3,4,45}` becomes `{2,4,6,8,90}`; and `multiply_2`
is the same function of one element: it leaves `2 * x` in `x` and the reference it returns
reads `2 * x`. -/
theorem doubling_pass (v : List Int) (hv : ∀ x ∈ v, fitsInt (x * 2)) :
    for_each v main_lambda = v.map (fun x => 2 * x) ∧
    (for_each v main_lambda).length = v.length ∧
    (∀ i : Nat, (for_each v main_lambda)[i]? = v[i]?.map (fun x => 2 * x)) ∧
    main_my_vec = [2, 4, 6, 8, 90] ∧
    (∀ x, fitsInt (x * 2) → multiply_2 x = (2 * x, 2 * x)) ∧
    (∀ x, multiply_2 x = (main_lambda x, main_lambda x)) := by
  have hmap : for_each v main_lambda = v.map (fun x => 2 * x) := by
    rw [for_each_eq_map]
    apply List.map_congr_left
    intro x hx
    simp only [main_lambda, wrapInt_of_fits (hv x hx)]
    ring
  refine ⟨hmap, by rw [hmap, List.length_map], ?_, by decide, ?_, fun _ => rfl⟩
  · intro i
    rw [hmap, List.getElem?_map]
  · intro x hx
    simp only [multiply_2, wrapInt_of_fits hx]
    rw [Int.mul_comm]

theorem doubling_pass_witness :
    (∀ x ∈ [1, 2, 3, 4, 45], fitsInt (x * 2)) ∧
    (for_each [1, 2, 3, 4, 45] main_lambda = [1, 2, 3, 4, 45].map (fun x => 2 * x) ∧
    (for_each [1, 2, 3, 4, 45] main_lambda).length = [1, 2, 3, 4, 45].length ∧
    (∀ i : Nat, (for_each [1, 2, 3, 4, 45] main_lambda)[i]?
      = ([1, 2, 3, 4, 45] : List Int)[i]?.map (fun x => 2 * x)) ∧
    main_my_vec = [2, 4, 6, 8, 90] ∧
    (∀ x, fitsInt (x * 2) → multiply_2 x = (2 * x, 2 * x)) ∧
    (∀ x, multiply_2 x = (main_lambda x, main_lambda x))) :=
  ⟨by decide, doubling_pass [1, 2, 3, 4, 45] (by decide)⟩
